import Mathlib

/-
Verification development for the CAL dependency analysis engine
(symbol database, object parsers, hierarchy builder, section extractor,
reference extractor and the dependency/relation query tools).

Strings are modelled as `List Char`.  JavaScript `Map` objects are modelled
as association lists in key insertion order: `set` on an existing key
updates the value in place (preserving the key's position), `set` on a
fresh key appends, and `values()` returns values in key insertion order,
exactly as ECMAScript specifies.

JS-specific conventions used throughout:
  - `\s` (whitespace class) is modelled by `isWsJS` (ASCII whitespace plus
    the Unicode line separators; the NBSP-style exotic space characters do
    not occur in this repository's inputs);
  - `.` in a regex without the `s` flag matches any character except the
    line terminators LF, CR, U+2028, U+2029 (`isLineTerm`);
  - `\w` is `[A-Za-z0-9_]` (`isWordChar`);
  - the `i` flag is modelled by ASCII case folding (`Char.toLower`), which
    agrees with `String.prototype.toLowerCase` on the ASCII names used by
    the repository;
  - `"Type:id"` map keys are modelled by the pair `(type, id)` (the enum
    strings contain no colon and ids print as digit runs, so the string
    key is in bijection with the pair).
-/

namespace CAL

/-- Strings are lists of characters. -/
abbrev Str := List Char

/-- Characters of the JS `\s` class used by this code base (ASCII
whitespace forms plus the two Unicode line separators). -/
def isWsJS (c : Char) : Bool :=
  c == Char.ofNat 32 || c == Char.ofNat 9 || c == Char.ofNat 10 ||
  c == Char.ofNat 13 || c == Char.ofNat 11 || c == Char.ofNat 12 ||
  c == Char.ofNat 8232 || c == Char.ofNat 8233

/-- Line terminators, the characters a JS regex `.` does not match. -/
def isLineTerm (c : Char) : Bool :=
  c == Char.ofNat 10 || c == Char.ofNat 13 ||
  c == Char.ofNat 8232 || c == Char.ofNat 8233

/-- JS `\w`: ASCII letters, digits, underscore. -/
def isWordChar (c : Char) : Bool :=
  c.isAlpha || c.isDigit || c == Char.ofNat 95

/-- The newline character. -/
def nlChar : Char := Char.ofNat 10

/-- The carriage-return character. -/
def crChar : Char := Char.ofNat 13

/-- The opening curly brace. -/
def obChar : Char := Char.ofNat 123

/-- The closing curly brace. -/
def cbChar : Char := Char.ofNat 125

/-- The double-quote character. -/
def dqChar : Char := Char.ofNat 34

/-- The single-quote character. -/
def sqChar : Char := Char.ofNat 39

/-- The backslash character. -/
def bsChar : Char := Char.ofNat 92

/-- Lowercases a string characterwise (models `toLowerCase` on the ASCII
names this repository works with). -/
def lowerStr (s : Str) : Str := s.map Char.toLower

/-- Case-insensitive character comparison (the regex `i` flag). -/
def eqCI (a b : Char) : Bool := a.toLower == b.toLower

/-- Case-insensitive string equality. -/
def eqCIStr : Str → Str → Bool
  | [], [] => true
  | a :: as, b :: bs => eqCI a b && eqCIStr as bs
  | _, _ => false

/-- JS `String.prototype.trim`: strips leading and trailing whitespace. -/
def trimJS (s : Str) : Str :=
  ((s.dropWhile isWsJS).reverse.dropWhile isWsJS).reverse

/-- Numeric value of a digit run (models `parseInt(digits, 10)`). -/
def natOfDigits (s : Str) : Nat :=
  s.foldl (fun n c => n * 10 + (c.toNat - 48)) 0

/-- Splits a string at LF characters, exactly as JS `split('\n')`. -/
def splitNl : Str → List Str
  | [] => [[]]
  | c :: rest =>
    match splitNl rest with
    | [] => [[c]]
    | h :: t => if c == nlChar then [] :: h :: t else (c :: h) :: t

/-- Substring containment (JS `String.prototype.includes`). -/
def containsSub (hay needle : Str) : Bool :=
  match hay with
  | [] => needle.isEmpty
  | _ :: rest => needle.isPrefixOf hay || containsSub rest needle

/-- Decidable equality of fallible results, for evaluating concrete
parser outcomes. -/
instance exceptDecEq {ε α : Type} [DecidableEq ε] [DecidableEq α] :
    DecidableEq (Except ε α) := fun a b =>
  match a, b with
  | .error e1, .error e2 =>
    if h : e1 = e2 then .isTrue (by rw [h])
    else .isFalse (by intro hh; injection hh; exact h (by assumption))
  | .ok v1, .ok v2 =>
    if h : v1 = v2 then .isTrue (by rw [h])
    else .isFalse (by intro hh; injection hh; exact h (by assumption))
  | .error _, .ok _ => .isFalse (by intro hh; cases hh)
  | .ok _, .error _ => .isFalse (by intro hh; cases hh)

/-- Index of the first occurrence of a substring (JS `indexOf`), if any. -/
def indexOfSub (hay needle : Str) : Option Nat :=
  match hay with
  | [] => if needle.isEmpty then some 0 else none
  | _ :: rest =>
    if needle.isPrefixOf hay then some 0
    else (indexOfSub rest needle).map (· + 1)

/-- Case-insensitive prefix test. -/
def startsCI : Str → Str → Bool
  | [], _ => true
  | _ :: _, [] => false
  | p :: ps, c :: cs => eqCI p c && startsCI ps cs

/-- JS `String.prototype.substring` with its argument clamping and
swapping semantics, on character lists. -/
def jsSubstring (s : Str) (a b : Nat) : Str :=
  let aa := min a s.length
  let bb := min b s.length
  (s.take (max aa bb)).drop (min aa bb)

/-- Association list with JS `Map` semantics (see header comment). -/
abbrev AMap (κ ν : Type) := List (κ × ν)

/-- Lookup in a JS map. -/
def AMap.get? {κ ν : Type} [DecidableEq κ] : AMap κ ν → κ → Option ν
  | [], _ => none
  | (k, v) :: rest, key => if k = key then some v else AMap.get? rest key

/-- JS `Map.prototype.set`: update in place if the key exists (keeping its
insertion position), append otherwise. -/
def AMap.set {κ ν : Type} [DecidableEq κ] : AMap κ ν → κ → ν → AMap κ ν
  | [], key, val => [(key, val)]
  | (k, v) :: rest, key, val =>
    if k = key then (k, val) :: rest else (k, v) :: AMap.set rest key val

/-- JS `Map.prototype.values()`, in key insertion order. -/
def AMap.values {κ ν : Type} (m : AMap κ ν) : List ν := m.map Prod.snd

/-! Data model (`src/types/cal-types.ts`).  The TS interfaces form a union
tagged by `type`; here a single `CALObject` record carries the fields of
every variant that the embedded operations inspect (`fields` is only
populated for record types, `variables` for procedural units and reports,
`sourceTable` for surfaces, `dataItems` for reports), mirroring how the
TS code accesses them after an `as` cast. -/

/-- The closed enumeration of the 8 object kinds (`CALObjectType`). -/
inductive CALObjectType where
  | Table
  | Page
  | Form
  | Codeunit
  | Report
  | XMLport
  | Query
  | MenuSuite
deriving DecidableEq, Repr

/-- Property values (`string | number | boolean`; the `string[]` variant
never reaches the embedded operations). -/
inductive CALPropValue where
  | str (s : Str)
  | num (n : Int)
  | bool (b : Bool)
deriving DecidableEq, Repr

/-- JS `toString()` on a property value. -/
def CALPropValue.toStr : CALPropValue → Str
  | .str s => s
  | .num n => (toString n).toList
  | .bool b => (toString b).toList

/-- JS truthiness of a property value (empty string, `0` and `false` are
falsy). -/
def CALPropValue.truthy : CALPropValue → Bool
  | .str s => !s.isEmpty
  | .num n => n != 0
  | .bool b => b

/-- Name/value property pair (`CALProperty`). -/
structure CALProperty where
  name : Str
  value : CALPropValue
deriving DecidableEq, Repr

/-- Table field (`CALField`); only the components the embedded operations
read are carried. -/
structure CALField where
  id : Nat
  name : Str
  dataType : Str
  properties : List CALProperty
  calcFormula : Option Str := none
deriving DecidableEq, Repr

/-- Variable declaration (`CALVariable`).  Optional components are absent
(`none`) when the corresponding TS field is left `undefined`. -/
structure CALVariable where
  name : Str
  type : Str
  subtype : Option Str := none
  length : Option Nat := none
  temporary : Option Bool := none
  dotNetAssembly : Option Str := none
  dotNetType : Option Str := none
deriving DecidableEq, Repr

/-- Procedure parameter (`CALParameter`). -/
structure CALParameter where
  name : Str
  type : Str
  byRef : Bool
deriving DecidableEq, Repr

/-- Procedure (`CALProcedure`). -/
structure CALProcedure where
  id : Nat
  name : Str
  parameters : List CALParameter := []
  returnType : Option Str := none
  localVariables : List CALVariable := []
  body : Str := []
  isLocal : Option Bool := none
deriving DecidableEq, Repr

/-- Report/query data item (`CALDataItem`); `sourceTable = 0` plays the
role of the falsy placeholder the query parser stores. -/
structure CALDataItem where
  id : Nat
  name : Str
  sourceTable : Nat
  indentation : Nat
deriving DecidableEq, Repr

/-- Parsed object (the `CALObjectUnion` variants collapsed into one
record, see the section comment).  `vars` stands for the TS field
`variables`, which is a reserved word here. -/
structure CALObject where
  type : CALObjectType
  id : Nat
  name : Str
  properties : List CALProperty := []
  fields : List CALField := []
  procedures : List CALProcedure := []
  vars : List CALVariable := []
  sourceTable : Option Nat := none
  dataItems : List CALDataItem := []
deriving DecidableEq, Repr

/-- Reference target kinds (`CALReference.targetType`). -/
inductive RefTargetType where
  | Table
  | Field
  | Page
  | Codeunit
deriving DecidableEq, Repr

/-- Reference origin kinds (`CALReference.referenceType`). -/
inductive RefKind where
  | TableRelation
  | CalcFormula
  | RecordVariable
  | SourceTable
  | SourceExpr
  | DataItemTable
deriving DecidableEq, Repr

/-- Directional reference edge (`CALReference`). -/
structure CALReference where
  sourceType : CALObjectType
  sourceId : Nat
  sourceName : Str
  sourceLocation : Str
  targetType : RefTargetType
  targetId : Option Nat := none
  targetName : Str
  referenceType : RefKind
deriving DecidableEq, Repr

/-! Symbol database (`src/core/symbol-database.ts`). -/

/-- The five indices of `SymbolDatabase`.  `objectsById` and
`proceduresByObject` are keyed by the `"Type:id"` string, modelled as the
pair; `objectsByName` by the lowercased name; `fieldsByTable` by the id
rendered as a string, modelled as the id. -/
structure SymbolDatabase where
  objectsByName : AMap Str (List CALObject)
  objectsByType : AMap CALObjectType (List CALObject)
  objectsById : AMap (CALObjectType × Nat) CALObject
  fieldsByTable : AMap Nat (List CALField)
  proceduresByObject : AMap (CALObjectType × Nat) (List CALProcedure)

/-- Freshly constructed database: all indices empty. -/
def SymbolDatabase.empty : SymbolDatabase :=
  ⟨[], [], [], [], []⟩

/-- Procedure extraction switch (`extractProcedures`): tables, pages,
codeunits, reports and XMLports carry procedures, the rest contribute
none. -/
def extractProcedures (obj : CALObject) : List CALProcedure :=
  match obj.type with
  | .Table => obj.procedures
  | .Page => obj.procedures
  | .Codeunit => obj.procedures
  | .Report => obj.procedures
  | .XMLport => obj.procedures
  | _ => []

/-- Database insertion (`addObject`): overwrite the `(type,id)` entry,
rebuild the new lowercase name's bucket and the kind bucket without an
entry for this `(type,id)`, store the field list for tables, and store
the procedure list when it is non-empty. -/
def SymbolDatabase.addObject (db : SymbolDatabase) (obj : CALObject) :
    SymbolDatabase :=
  let key := (obj.type, obj.id)
  let byId := db.objectsById.set key obj
  let nameLower := lowerStr obj.name
  let existingByName := (db.objectsByName.get? nameLower).getD []
  let filtered := existingByName.filter
    (fun e => !(e.type == obj.type && e.id == obj.id))
  let byName := db.objectsByName.set nameLower (filtered ++ [obj])
  let existingByType := (db.objectsByType.get? obj.type).getD []
  let filteredByType := existingByType.filter (fun e => e.id != obj.id)
  let byType := db.objectsByType.set obj.type (filteredByType ++ [obj])
  let fbt :=
    if obj.type == .Table then db.fieldsByTable.set obj.id obj.fields
    else db.fieldsByTable
  let procs := extractProcedures obj
  let pbo :=
    if !procs.isEmpty then db.proceduresByObject.set key procs
    else db.proceduresByObject
  ⟨byName, byType, byId, fbt, pbo⟩

/-- Lookup by `(type, id)` (`getObject` with a numeric argument). -/
def SymbolDatabase.getObjectById (db : SymbolDatabase)
    (t : CALObjectType) (id : Nat) : Option CALObject :=
  db.objectsById.get? (t, id)

/-- Lookup by name (`getObject` with a string argument): the lowercased
name's bucket searched for the first entry of the requested kind. -/
def SymbolDatabase.getObjectByName (db : SymbolDatabase)
    (t : CALObjectType) (name : Str) : Option CALObject :=
  (((db.objectsByName.get? (lowerStr name)).getD []).find?
    (fun e => e.type == t))

/-- Kind bucket (`getObjectsByType`). -/
def SymbolDatabase.getObjectsByType (db : SymbolDatabase)
    (t : CALObjectType) : List CALObject :=
  (db.objectsByType.get? t).getD []

/-- Fields index lookup (`getFieldsByTable`). -/
def SymbolDatabase.getFieldsByTable (db : SymbolDatabase) (id : Nat) :
    List CALField :=
  (db.fieldsByTable.get? id).getD []

/-- Procedures index lookup (`getProceduresByObject`). -/
def SymbolDatabase.getProceduresByObject (db : SymbolDatabase)
    (t : CALObjectType) (id : Nat) : List CALProcedure :=
  (db.proceduresByObject.get? (t, id)).getD []

/-! Search (`searchObjects`).  The pattern is compiled by first escaping
the regex metacharacters with a backslash and then turning `*` into `.*`;
the result is wrapped in `^...$` and tested with the `i` flag.
`compileSearchPattern` performs the two `replace` passes and `rxTest`
interprets the compiled pattern against a whole name (full-match, i.e.
the `^`/`$` anchors), with `.` refusing line terminators as in JS. -/

/-- The metacharacters escaped by `searchObjects`:
`. + ? ^ $ { } ( ) | [ ] \`. -/
def escMetaChars : List Char :=
  ['.', '+', '?', '^', '$', obChar, cbChar, '(', ')', '|', '[', ']', bsChar]

/-- Pattern compilation: escape metacharacters, then `*` becomes `.*`. -/
def compileSearchPattern : Str → Str
  | [] => []
  | c :: rest =>
    if c == '*' then '.' :: '*' :: compileSearchPattern rest
    else if escMetaChars.contains c then bsChar :: c :: compileSearchPattern rest
    else c :: compileSearchPattern rest

/-- Fuel-indexed interpreter for the compiled pattern (which consists
only of literal characters, backslash-escaped literals, and `.*`
groups), with the case-insensitive flag and the JS
`.`-excludes-line-terminators rule; matching the whole subject
corresponds to the `^`/`$` anchors.  Every recursive call shrinks
`p.length + s.length`, so the fuel is a mere totality device:
`rxTest` below supplies enough of it, and `rxTest_eq` restates the
intended recurrence without fuel. -/
def rxTestF : Nat → Str → Str → Bool
  | 0, _, _ => false
  | _ + 1, [], s => s.isEmpty
  | fuel + 1, a :: ps, s =>
    if a == bsChar then
      match ps, s with
      | c :: ps2, x :: xs => eqCI c x && rxTestF fuel ps2 xs
      | _, _ => false
    else if a == '.' then
      match ps with
      | '*' :: ps2 =>
        rxTestF fuel ps2 s ||
          (match s with
           | x :: xs => !isLineTerm x && rxTestF fuel (a :: ps) xs
           | [] => false)
      | _ =>
        match s with
        | x :: xs => !isLineTerm x && rxTestF fuel ps xs
        | [] => false
    else
      match s with
      | x :: xs => eqCI a x && rxTestF fuel ps xs
      | [] => false

/-- Whole-subject test of a compiled pattern. -/
def rxTest (p s : Str) : Bool :=
  rxTestF (p.length + s.length + 1) p s

/-- JS `Array.prototype.slice(start, end?)` for natural arguments. -/
def sliceJS (l : List CALObject) (start : Nat) : Option Nat → List CALObject
  | some lim => (l.drop start).take lim
  | none => l.drop start

/-- Search scope (`objectsToSearch` in `searchObjects`): the kind bucket
when a kind is given, else all stored objects in id-map insertion
order. -/
def SymbolDatabase.searchScope (db : SymbolDatabase)
    (type? : Option CALObjectType) : List CALObject :=
  match type? with
  | some t => (db.objectsByType.get? t).getD []
  | none => db.objectsById.values

/-- Object search (`searchObjects`): compile the pattern, filter the
scope by the compiled matcher on the name, then
`slice(offset, offset + limit)`. -/
def SymbolDatabase.searchObjects (db : SymbolDatabase) (pattern : Str)
    (type? : Option CALObjectType) (limit : Option Nat) (offset : Nat) :
    List CALObject :=
  let rx := compileSearchPattern pattern
  let found := (db.searchScope type?).filter (fun o => rxTest rx o.name)
  sliceJS found offset limit

/-- Specification-side wildcard matching, written from the spec's words:
the pattern matches the whole name, `*` stands for an arbitrary substring
free of line terminators, every other pattern character matches itself up
to case. -/
inductive GlobMatches : Str → Str → Prop where
  | nil : GlobMatches [] []
  | lit {c d : Char} {p s : Str} : c ≠ '*' → eqCI c d = true →
      GlobMatches p s → GlobMatches (c :: p) (d :: s)
  | star {u p s : Str} : (∀ c ∈ u, isLineTerm c = false) →
      GlobMatches p s → GlobMatches ('*' :: p) (u ++ s)

/-! Indentation hierarchy builder
(`buildControlHierarchy`, `src/parser/page-parser.ts`).  The JS version
mutates shared child arrays; here the stack carries each still-open
control together with its children collected so far (in reverse), and a
control is attached to its parent (the entry below it) or to the root
list when it is popped, which yields the same final forest. -/

/-- Page control (`CALControl`); only the components the hierarchy
builder and control parser touch are carried. -/
structure CALControl where
  id : Nat
  name : Str := []
  type : Str := []
  indentation : Nat
  sourceExpr : Option Str := none
  properties : List CALProperty := []
deriving DecidableEq, Repr

/-- Finished control tree node: the control and its children in source
order. -/
inductive CtrlTree where
  | node (ctrl : CALControl) (children : List CtrlTree)

/-- Builder state: finished roots (in order) and the stack of open
controls, top first, children collected in reverse. -/
abbrev HierState := List CtrlTree × List (CALControl × List CtrlTree)

/-- Attach a finished subtree to the node below it on the stack, or to
the root list when the stack is empty. -/
def attachFinished (t : CtrlTree) : HierState → HierState
  | (roots, []) => (roots ++ [t], [])
  | (roots, (p, pk) :: rest) => (roots, (p, t :: pk) :: rest)

/-- Pop while the stack top's indentation is `≥ level` (the builder's
inner `while` loop), finishing each popped control. -/
def popWhileGE (level : Nat) : HierState → HierState
  | (roots, []) => (roots, [])
  | (roots, (c, kids) :: rest) =>
    if level ≤ c.indentation then
      popWhileGE level (attachFinished (CtrlTree.node c kids.reverse) (roots, rest))
    else (roots, (c, kids) :: rest)
termination_by st => st.2.length
decreasing_by simp_wf; cases rest <;> simp [attachFinished]

/-- The builder's error message for a child with no parent. -/
def hierErrMsg (c : CALControl) : Str :=
  "Invalid control hierarchy: control ".toList ++ (toString c.id).toList ++
  " at indentation ".toList ++ (toString c.indentation).toList ++
  " has no parent".toList

/-- One step of the builder: pop, then either start a root (indentation
zero), push as child of the new top, or fail when a positive-indentation
control finds the stack empty. -/
def hierStep (st : HierState) (c : CALControl) : Except Str HierState :=
  let st' := popWhileGE c.indentation st
  if c.indentation = 0 then
    .ok (st'.1, (c, []) :: st'.2)
  else
    match st'.2 with
    | [] => .error (hierErrMsg c)
    | _ => .ok (st'.1, (c, []) :: st'.2)

/-- Hierarchy construction (`buildControlHierarchy`): fold the flat list
through `hierStep`, then close every still-open control. -/
def buildControlHierarchy (flat : List CALControl) :
    Except Str (List CtrlTree) :=
  (flat.foldlM hierStep (([], []) : HierState)).map
    (fun st => (popWhileGE 0 st).1)

/-- Pre-order listing of a forest: each node before its children,
siblings in order. -/
def preorderF : List CtrlTree → List CALControl
  | [] => []
  | CtrlTree.node c kids :: ts => c :: (preorderF kids ++ preorderF ts)

/-! Section extractors (`extractSection` / `extractSectionExact`,
`src/parser/page-parser.ts`).  The former searches for the regex
`\b<name>\s*\{` (word boundary, case-insensitive), the latter for
`^\s*<name>\s*\{` with the multiline flag (the keyword preceded only by
whitespace back to a line start); both then scan braces at depth 1 and
return `substring(startIndex, endIndex - 1)`, which on a missing closer
yields the rest of the text minus its final character instead of a
failure. -/

/-- Word-character test on an optional character (absent counts as
non-word, for the boundary at the ends of the input). -/
def optWord : Option Char → Bool
  | some c => isWordChar c
  | none => false

/-- Attempt of `<name>\s*\{` at the head of `suffix` (case-insensitive);
returns the matched length (through the opening brace). -/
def sectionHeadLen (suffix name : Str) : Option Nat :=
  if startsCI name suffix then
    let after := suffix.drop name.length
    let wsLen := (after.takeWhile isWsJS).length
    match after.drop wsLen with
    | c :: _ => if c == obChar then some (name.length + wsLen + 1) else none
    | [] => none
  else none

/-- Leftmost position (reported as the index just after the opening
brace) where `\b<name>\s*\{` matches; `prevWord` tracks whether the
character before the current position is a word character. -/
def findWordBoundaryAux (name : Str) (prevWord : Bool) (suffix : Str)
    (pos : Nat) : Option Nat :=
  match
    (if prevWord != optWord suffix.head? then sectionHeadLen suffix name
     else none),
    suffix with
  | some len, _ => some (pos + len)
  | none, [] => none
  | none, c :: rest => findWordBoundaryAux name (isWordChar c) rest (pos + 1)

/-- Depth scan starting at depth 1 (the extractors' `while` loop): the
number of characters consumed when the loop stops. -/
def braceEndAux : Str → Nat → Nat → Nat
  | [], _, n => n
  | c :: rest, depth, n =>
    let depth' :=
      if c == obChar then depth + 1
      else if c == cbChar then depth - 1
      else depth
    if c == cbChar && depth' == 0 then n + 1 else braceEndAux rest depth' (n + 1)

/-- Generic section extractor (`extractSection`): word-boundary keyword
search, then the depth scan. -/
def extractSection (content name : Str) : Option Str :=
  match findWordBoundaryAux name false content 0 with
  | none => none
  | some startIndex =>
    let endIndex := startIndex + braceEndAux (content.drop startIndex) 1 0
    some (jsSubstring content startIndex (endIndex - 1))

/-- Attempt of `\s*<name>\s*\{` at the head of `suffix` (the `^`-anchored
form; the keyword's first character is a letter, so the greedy leading
`\s*` run is exactly the maximal whitespace run). -/
def sectionLineLen (suffix name : Str) : Option Nat :=
  let wsLen := (suffix.takeWhile isWsJS).length
  (sectionHeadLen (suffix.drop wsLen) name).map (· + wsLen)

/-- Leftmost line-start position where `^\s*<name>\s*\{` matches under
the multiline flag (`^` after LF, CR and the Unicode line separators);
returns the index just after the opening brace. -/
def findLineStartAux (name : Str) (atLineStart : Bool) (suffix : Str)
    (pos : Nat) : Option Nat :=
  match
    (if atLineStart then sectionLineLen suffix name else none), suffix with
  | some len, _ => some (pos + len)
  | none, [] => none
  | none, c :: rest =>
    findLineStartAux name (isLineTerm c) rest (pos + 1)

/-- Exact section extractor (`extractSectionExact`): start-of-line
keyword search, then the depth scan. -/
def extractSectionExact (content name : Str) : Option Str :=
  match findLineStartAux name true content 0 with
  | none => none
  | some startIndex =>
    let endIndex := startIndex + braceEndAux (content.drop startIndex) 1 0
    some (jsSubstring content startIndex (endIndex - 1))

/-! Declaration parser (`parseObjectDeclaration`,
`src/parser/object-parser.ts`).  The line must match
`^OBJECT\s+(<8 kind tokens>)\s+(\d+)\s+(.+)$` (case-sensitive); then the
always-true enum membership and never-NaN id checks run, and finally an
empty-after-trim name is rejected.  The regex's `(.+)$` clause makes the
name region end-anchored and line-terminator-free. -/

/-- Parsed header (`CALObjectHeader`). -/
structure CALObjectHeader where
  type : CALObjectType
  id : Nat
  name : Str
deriving DecidableEq, Repr

/-- The kind tokens of the declaration regex, in alternation order,
paired with their enum values. -/
def kindTokens : List (Str × CALObjectType) :=
  [(['T','a','b','l','e'], .Table), (['P','a','g','e'], .Page),
   (['F','o','r','m'], .Form),
   (['C','o','d','e','u','n','i','t'], .Codeunit),
   (['R','e','p','o','r','t'], .Report),
   (['X','M','L','p','o','r','t'], .XMLport),
   (['Q','u','e','r','y'], .Query),
   (['M','e','n','u','S','u','i','t','e'], .MenuSuite)]

/-- The token spelling of a kind (also the TS enum's string value, used
in keys and error messages). -/
def kindTok : CALObjectType → Str
  | .Table => ['T','a','b','l','e']
  | .Page => ['P','a','g','e']
  | .Form => ['F','o','r','m']
  | .Codeunit => ['C','o','d','e','u','n','i','t']
  | .Report => ['R','e','p','o','r','t']
  | .XMLport => ['X','M','L','p','o','r','t']
  | .Query => ['Q','u','e','r','y']
  | .MenuSuite => ['M','e','n','u','S','u','i','t','e']

/-- First kind token that is a prefix of `s` (the regex alternation; the
eight tokens have pairwise distinct first letters, so at most one can
apply). -/
def matchKindTok (s : Str) : Option (CALObjectType × Str) :=
  match kindTokens.find? (fun kt => kt.1.isPrefixOf s) with
  | some (tok, t) => some (t, s.drop tok.length)
  | none => none

/-- Regex part of `parseObjectDeclaration`: on success the kind, the
digit run and the raw name capture.  The name capture starts at the
first non-whitespace character after the id (greedy `\s+`) and must be
non-empty and free of line terminators; when only whitespace follows the
id, backtracking leaves a single non-terminator whitespace character as
the capture provided at least one `\s+` character remains before it. -/
def matchDeclLine (line : Str) : Option (CALObjectType × Str × Str) :=
  if "OBJECT".toList.isPrefixOf line then
    let rest0 := line.drop 6
    let w1 := rest0.takeWhile isWsJS
    if w1.isEmpty then none
    else
      match matchKindTok (rest0.drop w1.length) with
      | none => none
      | some (t, rest2) =>
        let w2 := rest2.takeWhile isWsJS
        if w2.isEmpty then none
        else
          let rest3 := rest2.drop w2.length
          let d := rest3.takeWhile Char.isDigit
          if d.isEmpty then none
          else
            let rest4 := rest3.drop d.length
            let w3 := rest4.takeWhile isWsJS
            let rest5 := rest4.drop w3.length
            if rest5.isEmpty then
              match w3.getLast? with
              | some lc =>
                if 2 ≤ w3.length && !isLineTerm lc then some (t, d, [lc])
                else none
              | none => none
            else
              if w3.isEmpty then none
              else if rest5.all (fun c => !isLineTerm c) then
                some (t, d, rest5)
              else none
  else none

/-- Declaration parsing (`parseObjectDeclaration`): regex match, the two
vacuous checks, then the empty-name rejection; failures carry the JS
error messages. -/
def parseObjectDeclaration (line : Str) : Except Str CALObjectHeader :=
  match matchDeclLine line with
  | none =>
    .error ("Invalid OBJECT declaration format: ".toList ++ line)
  | some (t, d, n) =>
    if (trimJS n).isEmpty then
      .error ("Missing object name in declaration: ".toList ++ line)
    else
      .ok ⟨t, natOfDigits d, trimJS n⟩

/-- The claim's reading of the declaration shape: `OBJECT`, a recognized
kind token, a digit run and a name part, separated by whitespace runs,
with the name non-empty after trimming and no constraint on the name's
characters. -/
def DeclShapeClaim (line : Str) (t : CALObjectType) (id : Nat)
    (name : Str) : Prop :=
  ∃ w1 w2 d w3 n,
    line = "OBJECT".toList ++ w1 ++ kindTok t ++ w2 ++ d ++ w3 ++ n ∧
    w1 ≠ [] ∧ (∀ c ∈ w1, isWsJS c = true) ∧
    w2 ≠ [] ∧ (∀ c ∈ w2, isWsJS c = true) ∧
    d ≠ [] ∧ (∀ c ∈ d, c.isDigit = true) ∧
    w3 ≠ [] ∧ (∀ c ∈ w3, isWsJS c = true) ∧
    id = natOfDigits d ∧
    name = trimJS n ∧ name ≠ []

/-- The shape the code actually accepts: as `DeclShapeClaim` in the
canonical decomposition (name part starting with a non-whitespace
character), with the additional requirement that the name part be free
of line terminators — the regex's `(.+)$` cannot span one. -/
def DeclShapeCode (line : Str) (t : CALObjectType) (id : Nat)
    (name : Str) : Prop :=
  ∃ w1 w2 d w3 c n',
    line = "OBJECT".toList ++ w1 ++ kindTok t ++ w2 ++ d ++ w3 ++ (c :: n') ∧
    w1 ≠ [] ∧ (∀ x ∈ w1, isWsJS x = true) ∧
    w2 ≠ [] ∧ (∀ x ∈ w2, isWsJS x = true) ∧
    d ≠ [] ∧ (∀ x ∈ d, x.isDigit = true) ∧
    w3 ≠ [] ∧ (∀ x ∈ w3, isWsJS x = true) ∧
    isWsJS c = false ∧ (∀ x ∈ c :: n', isLineTerm x = false) ∧
    id = natOfDigits d ∧
    name = trimJS (c :: n')

/-! Reference extractor (`src/core/reference-extractor.ts`). -/

/-- Leading target name of a relation-constraint value (the regexes
`^"([^"]+)"` and `^(\w+)` of `extractTableRelationRef`): a quoted phrase
when the value opens with a quote that is properly closed, otherwise the
leading word-character run; empty when neither applies. -/
def relTargetLeading (v : Str) : Str :=
  match v with
  | [] => []
  | c :: rest =>
    if c == dqChar then
      let inner := rest.takeWhile (fun x => x != dqChar)
      if !inner.isEmpty && inner.length < rest.length then inner else []
    else v.takeWhile isWordChar

/-- Relation-constraint extraction (`extractTableRelationRef`): find the
`TableRelation` property, reject falsy and whitespace-only values,
extract the leading target name. -/
def extractTableRelationRef (field : CALField) (table : CALObject) :
    Option CALReference :=
  match field.properties.find? (fun p => p.name == "TableRelation".toList) with
  | none => none
  | some prop =>
    if !prop.value.truthy then none
    else
      let v := prop.value.toStr
      if (trimJS v).isEmpty then none
      else
        let targetTableName := relTargetLeading v
        if targetTableName.isEmpty then none
        else
          some ⟨table.type, table.id, table.name,
            "Field:".toList ++ field.name, .Table, none, targetTableName,
            .TableRelation⟩

/-- Head attempt of `(<keywords>)\s*\(\s*"([^"]+)"`: one of the keywords
(compared by `cmp`, which is case folding for the extractor and exact
equality for the relation-map tool), optional whitespace, an opening
parenthesis, optional whitespace, then a non-empty quoted name. -/
def calcHeadAt (cmp : Str → Str → Bool) (kws : List Str) (s : Str) :
    Option Str :=
  match kws.find? (fun k => cmp k s) with
  | none => none
  | some k =>
    let r1 := (s.drop k.length).dropWhile isWsJS
    match r1 with
    | c :: r2 =>
      if c == '(' then
        match r2.dropWhile isWsJS with
        | q :: r3 =>
          if q == dqChar then
            let inner := r3.takeWhile (fun x => x != dqChar)
            if !inner.isEmpty && inner.length < r3.length then some inner
            else none
          else none
        | [] => none
      else none
    | [] => none

/-- Leftmost match of the aggregate-formula regex. -/
def calcScanAux (cmp : Str → Str → Bool) (kws : List Str) : Str → Option Str
  | [] => none
  | s@(_ :: rest) =>
    match calcHeadAt cmp kws s with
    | some inner => some inner
    | none => calcScanAux cmp kws rest

/-- Aggregate-formula extraction (`extractCalcFormulaRefs`): on a truthy
`calcFormula`, the first `Sum|Count|Exist|Lookup` (case-insensitive)
applied to a quoted name yields one edge. -/
def extractCalcFormulaRefs (field : CALField) (table : CALObject) :
    List CALReference :=
  match field.calcFormula with
  | none => []
  | some f =>
    if f.isEmpty then []
    else
      match
        calcScanAux startsCI
          ["Sum".toList, "Count".toList, "Exist".toList, "Lookup".toList] f
      with
      | none => []
      | some inner =>
        [⟨table.type, table.id, table.name, "Field:".toList ++ field.name,
          .Table, none, inner, .CalcFormula⟩]

/-- Capture of `/^Record\s+(.+)$/i` applied to a variable's type string:
the part after `Record` and at least one whitespace character, which the
`(.+)$` clause forces to be non-empty and line-terminator-free; when
nothing follows the whitespace run, backtracking leaves its last
character as the capture if at least two whitespace characters are
present. -/
def recordTypeCapture (t : Str) : Option Str :=
  if startsCI "Record".toList t then
    let rest0 := t.drop 6
    let w := rest0.takeWhile isWsJS
    if w.isEmpty then none
    else
      let rest := rest0.drop w.length
      if !rest.isEmpty then
        if rest.all (fun c => !isLineTerm c) then some rest else none
      else
        match w.getLast? with
        | some lc =>
          if 2 ≤ w.length && !isLineTerm lc then some [lc] else none
        | none => none
  else none

/-- Record-variable extraction (`extractRecordVariableRef`): a type
matching `Record <x>` produces one edge; a digit-run payload carries that
id, a quoted payload its inner name, anything else the trimmed payload
itself. -/
def extractRecordVariableRef (v : CALVariable) (obj : CALObject) :
    Option CALReference :=
  match recordTypeCapture v.type with
  | none => none
  | some cap =>
    let tableRef := trimJS cap
    let numeric := !tableRef.isEmpty && tableRef.all Char.isDigit
    if numeric then
      some ⟨obj.type, obj.id, obj.name, "Variable:".toList ++ v.name,
        .Table, some (natOfDigits tableRef), tableRef, .RecordVariable⟩
    else
      let inner := (tableRef.drop 1).takeWhile (fun x => x != dqChar)
      let quoted :=
        tableRef.head? == some dqChar && !inner.isEmpty &&
          (tableRef.drop 1).drop inner.length == [dqChar]
      let targetTableName := if quoted then inner else tableRef
      some ⟨obj.type, obj.id, obj.name, "Variable:".toList ++ v.name,
        .Table, none, targetTableName, .RecordVariable⟩

/-- Table dispatch (`extractTableReferences`): per field, the optional
relation edge then the formula edges. -/
def extractTableReferences (table : CALObject) : List CALReference :=
  (table.fields.map (fun f =>
    (extractTableRelationRef f table).toList ++
      extractCalcFormulaRefs f table)).flatten

/-- Page dispatch (`extractPageReferences`): a truthy bound-record id
becomes one edge. -/
def extractPageReferences (page : CALObject) : List CALReference :=
  match page.sourceTable with
  | some st =>
    if st != 0 then
      [⟨page.type, page.id, page.name, "Property:SourceTable".toList,
        .Table, some st, (toString st).toList, .SourceTable⟩]
    else []
  | none => []

/-- Codeunit dispatch (`extractCodeunitReferences`): one candidate edge
per record variable. -/
def extractCodeunitReferences (cu : CALObject) : List CALReference :=
  cu.vars.filterMap (fun v => extractRecordVariableRef v cu)

/-- Report dispatch (`extractReportReferences`): truthy data-item bound
records, then record variables. -/
def extractReportReferences (report : CALObject) : List CALReference :=
  (report.dataItems.filterMap (fun di =>
    if di.sourceTable != 0 then
      some ⟨report.type, report.id, report.name,
        "DataItem:".toList ++ di.name, .Table, some di.sourceTable,
        (toString di.sourceTable).toList, .DataItemTable⟩
    else none)) ++
  report.vars.filterMap (fun v => extractRecordVariableRef v report)

/-- Top-level dispatch (`extractReferences`): tables, pages, codeunits
and reports contribute; other kinds yield nothing. -/
def extractReferences (obj : CALObject) : List CALReference :=
  match obj.type with
  | .Table => extractTableReferences obj
  | .Page => extractPageReferences obj
  | .Codeunit => extractCodeunitReferences obj
  | .Report => extractReportReferences obj
  | _ => []

/-! Codeunit variable parsing (`src/parser/codeunit-parser.ts`): the
`CODE` section capture, the global `VAR` block capture, the line
accumulator and `parseVariableLine` with its `DotNet` / `TextConst` /
`Record` / simple-type branches.  Procedure parsing is not embedded: the
reference extractor never reads procedures, so it plays no part in the
claims settled here. -/

/-- Index of the last occurrence of a character. -/
def lastIdxOf (s : Str) (ch : Char) : Option Nat :=
  (s.reverse.findIdx? (fun c => c == ch)).map (fun i => s.length - 1 - i)

/-- Capture of `/CODE\s*\{([\s\S]*)\}/`: at the first `CODE` followed
(after whitespace) by an opening brace, everything up to the last closing
brace of the text; if no closing brace follows any such occurrence the
match fails. -/
def extractCodeSection : Str → Option Str
  | [] => none
  | s@(_ :: rest) =>
    match
      (if "CODE".toList.isPrefixOf s then
        let afterWs := (s.drop 4).dropWhile isWsJS
        match afterWs with
        | c :: body =>
          if c == obChar then
            match lastIdxOf body cbChar with
            | some i => some (body.take i)
            | none => none
          else none
        | [] => none
      else none)
    with
    | some cap => some cap
    | none => extractCodeSection rest

/-- Lookahead `(?=PROCEDURE|BEGIN\s*END\.)` of the `VAR` capture. -/
def varLookaheadAt (s : Str) : Bool :=
  "PROCEDURE".toList.isPrefixOf s ||
    ("BEGIN".toList.isPrefixOf s &&
      "END.".toList.isPrefixOf ((s.drop 5).dropWhile isWsJS))

/-- Characters before the first lookahead position, if one exists (the
lazy `([\s\S]*?)` capture). -/
def varLazyCapture : Str → Option Str
  | [] => none
  | s@(c :: rest) =>
    if varLookaheadAt s then some []
    else (varLazyCapture rest).map (fun cap => c :: cap)

/-- Capture of `/VAR\s*([\s\S]*?)(?=PROCEDURE|BEGIN\s*END\.)/`: at the
first `VAR` occurrence after which a lookahead position exists, the text
between the greedy whitespace run and that position (the lookahead
keywords start with non-whitespace characters, so no position inside the
whitespace run can satisfy it). -/
def varSectionCapture : Str → Option Str
  | [] => none
  | s@(_ :: rest) =>
    match
      (if "VAR".toList.isPrefixOf s then
        varLazyCapture ((s.drop 3).dropWhile isWsJS)
      else none)
    with
    | some cap => some cap
    | none => varSectionCapture rest

/-- Test of `/^\w+@\d+/`: a word run, `@`, at least one digit. -/
def varLineStarts (t : Str) : Bool :=
  let w := t.takeWhile isWordChar
  !w.isEmpty &&
    ((t.drop w.length).head? == some '@') &&
    (match (t.drop (w.length + 1)).head? with
     | some c => c.isDigit
     | none => false)

/-- Fallback of `parseDotNetVariable` and `parseTextConstVariable`:
`typeSpec.replace(/^DotNet\s+/, '')` (resp. `TextConst`): strip the
keyword and the following whitespace run when present. -/
def stripKwWs (kw : Str) (tw : Str) : Str :=
  if kw.isPrefixOf tw then
    let r := tw.drop kw.length
    let w := r.takeWhile isWsJS
    if w.isEmpty then tw else r.drop w.length
  else tw

/-- DotNet variable branch (`parseDotNetVariable`): the regex
`^DotNet\s+"'([^']+)'\.(.+)"$` split into assembly descriptor and dotted
type path, with the whole-value fallback. -/
def parseDotNetVariable (name tw : Str) : CALVariable :=
  let fallback : CALVariable :=
    { name := name, type := "DotNet".toList,
      subtype := some (stripKwWs "DotNet".toList tw) }
  let r := tw.drop 6
  let w := r.takeWhile isWsJS
  if w.isEmpty then fallback
  else
    match r.drop w.length with
    | q1 :: q2 :: r3 =>
      if q1 == dqChar && q2 == sqChar then
        let asm := r3.takeWhile (fun x => x != sqChar)
        let after := r3.drop asm.length
        if !asm.isEmpty && after.head? == some sqChar then
          match after.drop 1 with
          | dot :: r4 =>
            if dot == '.' && 2 ≤ r4.length && r4.getLast? == some dqChar &&
                (r4.dropLast).all (fun c => !isLineTerm c) then
              { name := name, type := "DotNet".toList,
                dotNetAssembly := some asm, dotNetType := some r4.dropLast }
            else fallback
          | [] => fallback
        else fallback
      else fallback
    | _ => fallback

/-- TextConst variable branch (`parseTextConstVariable`): the regex
`^TextConst\s+'(.+)'$` keeps the whole quoted body as the subtype, with
the whole-value fallback. -/
def parseTextConstVariable (name tw : Str) : CALVariable :=
  let fallback : CALVariable :=
    { name := name, type := "TextConst".toList,
      subtype := some (stripKwWs "TextConst".toList tw) }
  let r := tw.drop 9
  let w := r.takeWhile isWsJS
  if w.isEmpty then fallback
  else
    match r.drop w.length with
    | q :: r3 =>
      if q == sqChar && 2 ≤ r3.length && r3.getLast? == some sqChar &&
          (r3.dropLast).all (fun c => !isLineTerm c) then
        { name := name, type := "TextConst".toList,
          subtype := some r3.dropLast }
      else fallback
    | [] => fallback

/-- Match of `^Record\s+(\d+)` against the type spec (only reached when
it starts with `Record `): the digit run after the whitespace. -/
def recordNumMatch (tw : Str) : Option Str :=
  let r := tw.drop 6
  let w := r.takeWhile isWsJS
  if w.isEmpty then none
  else
    let d := (r.drop w.length).takeWhile Char.isDigit
    if d.isEmpty then none else some d

/-- Simple-type branch: `^(\w+)(?:\[(\d+)\])?`. -/
def simpleTypeMatch (name tw : Str) : Option CALVariable :=
  let w := tw.takeWhile isWordChar
  if w.isEmpty then none
  else
    match tw.drop w.length with
    | br :: r2 =>
      if br == '[' then
        let d := r2.takeWhile Char.isDigit
        if !d.isEmpty && (r2.drop d.length).head? == some ']' then
          some { name := name, type := w, length := some (natOfDigits d) }
        else some { name := name, type := w }
      else some { name := name, type := w }
    | [] => some { name := name, type := w }

/-- Head match of `parseVariableLine`: drop one trailing semicolon,
trim, match `^(\w+)@(\d+)\s*:\s*(.+)$` (an all-whitespace or
terminator-carrying type region fails the regex, exactly as the
original does), then strip a `TEMPORARY ` modifier; returns the
variable name, the modifier flag and the remaining type region. -/
def varHeadMatch (line : Str) : Option (Str × Bool × Str) :=
  let l0 := if line.getLast? == some ';' then line.dropLast else line
  let l := trimJS l0
  let w := l.takeWhile isWordChar
  if w.isEmpty then none
  else
    match l.drop w.length with
    | a :: r2 =>
      if a != '@' then none
      else
        let d := r2.takeWhile Char.isDigit
        if d.isEmpty then none
        else
          match (r2.drop d.length).dropWhile isWsJS with
          | colon :: r5 =>
            if colon != ':' then none
            else
              let r6 := r5.dropWhile isWsJS
              if r6.isEmpty then none
              else if !r6.all (fun c => !isLineTerm c) then none
              else
                let typeSpec := trimJS r6
                let isTemp := "TEMPORARY ".toList.isPrefixOf typeSpec
                let tw := if isTemp then typeSpec.drop 10 else typeSpec
                some (w, isTemp, tw)
          | [] => none
    | [] => none

/-- Type-region dispatch of `parseVariableLine`: the `DotNet`,
`TextConst`, `Record` and simple-type branches, tried in order. -/
def varTypeStage (name : Str) (isTemp : Bool) (tw : Str) :
    Option CALVariable :=
  if "DotNet ".toList.isPrefixOf tw then
    some (parseDotNetVariable name tw)
  else if "TextConst ".toList.isPrefixOf tw then
    some (parseTextConstVariable name tw)
  else if "Record ".toList.isPrefixOf tw then
    match recordNumMatch tw with
    | some dg =>
      some ⟨name, "Record".toList, some dg, none, some isTemp,
        none, none⟩
    | none => simpleTypeMatch name tw
  else simpleTypeMatch name tw

/-- Variable line parsing (`parseVariableLine`): the regex head match,
then the type dispatch. -/
def parseVariableLine (line : Str) : Option CALVariable :=
  match varHeadMatch line with
  | none => none
  | some (w, isTemp, tw) => varTypeStage w isTemp tw

/-- Accumulating `VAR`-block line walk (`parseVariables`' loop): a line
whose trimmed form starts a declaration flushes the accumulated one;
other non-empty lines are appended with a space. -/
def accumVarLines : List Str → Str → List CALVariable
  | [], current =>
    if current.isEmpty then [] else (parseVariableLine current).toList
  | l :: rest, current =>
    let t := trimJS l
    if t.isEmpty then accumVarLines rest current
    else if varLineStarts t then
      (if current.isEmpty then [] else (parseVariableLine current).toList) ++
        accumVarLines rest t
    else accumVarLines rest (current ++ (' ' :: t))

/-- Global variable parsing (`parseVariables`). -/
def parseVariables (codeSection : Str) : List CALVariable :=
  match varSectionCapture codeSection with
  | none => []
  | some varSection => accumVarLines (splitNl varSection) []

/-- Codeunit `CODE`-section parsing (`parseCodeunit`), restricted to the
variables component consumed by the reference extractor. -/
def parseCodeunitVars (content : Str) : Except Str (List CALVariable) :=
  match extractCodeSection content with
  | none => .error "CODE section not found in codeunit".toList
  | some codeSection => .ok (parseVariables codeSection)

/-! Table parser section stage (`parseTable`, `src/parser/query-parser.ts`
lines 170-263): header parse, kind check, section location by the exact
markers `"\n  FIELDS\n"` etc., and the required-section validation.  The
per-section item parsers (`parseFields`, `parseKeys`, ...) consume the
raw section texts collected here and are beyond the missing-section claim
settled in this development, so the result carries the raw texts. -/

/-- Depth scan of `findMatchingBrace`: from the first opening brace at or
after `startPos`, the index of the brace closing it, if any. -/
def depthScanAux : Str → Nat → Nat → Option Nat
  | [], _, _ => none
  | c :: rest, depth, i =>
    let d1 := if c == obChar then depth + 1 else depth
    let d2 := if c == cbChar then d1 - 1 else d1
    if c == cbChar && d2 == 0 then some i else depthScanAux rest d2 (i + 1)

/-- Matching-brace search (`findMatchingBrace`): `none` models the JS
`-1`. -/
def findMatchingBrace (content : Str) (startPos : Nat) : Option Nat :=
  match ((content.drop startPos).findIdx? (fun c => c == obChar)) with
  | none => none
  | some rel =>
    let ob := startPos + rel
    depthScanAux (content.drop ob) 0 ob

/-- A section slice as `parseTable` computes it:
`substring(start, end + 1)` with `end = -1` encoded as `none` (the JS
`substring` argument swap applies). -/
def sectionSlice (content : Str) (start : Nat) (stop : Option Nat) : Str :=
  jsSubstring content start (match stop with | some e => e + 1 | none => 0)

/-- Raw sections of a table object: the header plus the section texts
that the downstream item parsers consume. -/
structure TableSections where
  header : CALObjectHeader
  objectPropsSection : Option Str
  propsSection : Option Str
  fieldsSection : Str
  keysSection : Str
  fieldGroupsSection : Option Str
  codeSection : Option Str
deriving DecidableEq, Repr

/-- Optional section of `parseTable`: present when the marker occurs and
its matching brace lies beyond it. -/
def optionalSection (content : Str) (marker : Str) : Option Str :=
  match indexOfSub content marker with
  | none => none
  | some start =>
    match findMatchingBrace content start with
    | some e => if start < e then some (sectionSlice content start (some e)) else none
    | none => none

/-- Section stage of `parseTable`: header, kind check, and the
fields/keys requirement with the JS error messages. -/
def parseTable (content : Str) : Except Str TableSections :=
  match parseObjectDeclaration ((splitNl content).headD []) with
  | .error e => .error e
  | .ok header =>
    if header.type != CALObjectType.Table then
      .error ("Expected Table object, got ".toList ++ kindTok header.type)
    else
      match indexOfSub content "\n  FIELDS\n".toList with
      | none => .error "Missing FIELDS section in table".toList
      | some fieldsStart =>
        match indexOfSub content "\n  KEYS\n".toList with
        | none => .error "Missing KEYS section in table".toList
        | some keysStart =>
          .ok ⟨header,
            optionalSection content "OBJECT-PROPERTIES".toList,
            optionalSection content "\n  PROPERTIES\n".toList,
            sectionSlice content fieldsStart
              (findMatchingBrace content fieldsStart),
            sectionSlice content keysStart
              (findMatchingBrace content keysStart),
            optionalSection content "\n  FIELDGROUPS\n".toList,
            optionalSection content "\n  CODE\n".toList⟩

/-! Dependency and relation tools (`getDependencies` /
`getTableRelations`, `src/tools/mcp-tools.ts`).  The global
`FileRegistry.getReferences()` list is passed in as `allRefs`. -/

/-- Direction parameter of `getDependencies`. -/
inductive DepDirection where
  | incoming
  | outgoing
  | both
deriving DecidableEq, Repr

/-- Result of `getDependencies`. -/
structure DependencyGraph where
  incoming : List CALReference
  outgoing : List CALReference
deriving DecidableEq, Repr

/-- Append a candidate edge unless an already-collected edge satisfies
the duplicate test (the inline `results.some(...)` guards). -/
def addRefUnless (dup : CALReference → Bool) (acc : List CALReference)
    (r : CALReference) : List CALReference :=
  if acc.any dup then acc else acc ++ [r]

/-- Duplicate test by source id and target id only. -/
def dupByIds (r prior : CALReference) : Bool :=
  prior.sourceId == r.sourceId && prior.targetId == r.targetId

/-- Target-name extraction shared by the two tools: the leading quoted
phrase (trimmed) when present, else the text before the first `.`, then
before the first space, trimmed. -/
def relTargetFromValue (v : Str) : Str :=
  let fallback :=
    trimJS ((v.takeWhile (fun c => c != '.')).takeWhile (fun c => c != ' '))
  match v with
  | [] => fallback
  | c :: rest =>
    if c == dqChar then
      let inner := rest.takeWhile (fun x => x != dqChar)
      if !inner.isEmpty && inner.length < rest.length then trimJS inner
      else fallback
    else fallback

/-- String payload of a property when it is one (`typeof === 'string'`). -/
def CALPropValue.strVal? : CALPropValue → Option Str
  | .str s => some s
  | _ => none

/-- Incoming-side scan of one stored object in `getDependencies`: tables
contribute an edge per relation-constraint property whose lowercased
value contains the lowercased target name, pages one when bound to the
target id; both deduplicated by ids. -/
def depIncomingFromObj (objectId : Nat) (targetName : Str)
    (acc : List CALReference) (obj : CALObject) : List CALReference :=
  match obj.type with
  | .Table =>
    obj.fields.foldl (fun acc2 field =>
      field.properties.foldl (fun acc3 prop =>
        match prop.value.strVal? with
        | some s =>
          if prop.name == "TableRelation".toList &&
              containsSub (lowerStr s) (lowerStr targetName) then
            let ref : CALReference :=
              ⟨.Table, obj.id, obj.name, "Field:".toList ++ field.name,
                .Table, some objectId, targetName, .TableRelation⟩
            addRefUnless (dupByIds ref) acc3 ref
          else acc3
        | none => acc3) acc2) acc
  | .Page =>
    if obj.sourceTable == some objectId then
      let ref : CALReference :=
        ⟨.Page, obj.id, obj.name, "SourceTable".toList, .Table,
          some objectId, targetName, .SourceTable⟩
      addRefUnless (dupByIds ref) acc ref
    else acc
  | _ => acc

/-- Outgoing-side scan of the source table in `getDependencies`: an edge
per truthy relation-constraint property whose extracted target name
resolves in the database, deduplicated by ids. -/
def depOutgoingFromTable (db : SymbolDatabase) (table : CALObject)
    (acc : List CALReference) : List CALReference :=
  table.fields.foldl (fun acc2 field =>
    field.properties.foldl (fun acc3 prop =>
      match prop.value.strVal? with
      | some s =>
        if prop.name == "TableRelation".toList && !s.isEmpty then
          let targetTableName := relTargetFromValue s
          match db.getObjectByName .Table targetTableName with
          | some targetTable =>
            let ref : CALReference :=
              ⟨.Table, table.id, table.name, "Field:".toList ++ field.name,
                .Table, some targetTable.id, targetTable.name,
                .TableRelation⟩
            addRefUnless (dupByIds ref) acc3 ref
          | none => acc3
        else acc3
      | none => acc3) acc2) acc

/-- Name of the queried object, or the empty string when absent
(`targetObj?.name || ''`). -/
def depTargetName (db : SymbolDatabase) (objectType : CALObjectType)
    (objectId : Nat) : Str :=
  ((db.getObjectById objectType objectId).map (fun o => o.name)).getD []

/-- Registry edges matching the incoming filter of `getDependencies`. -/
def depIncomingBase (db : SymbolDatabase) (allRefs : List CALReference)
    (objectType : CALObjectType) (objectId : Nat) : List CALReference :=
  allRefs.filter (fun ref =>
    (ref.targetId == some objectId && ref.targetType == RefTargetType.Table) ||
      lowerStr ref.targetName == lowerStr (depTargetName db objectType objectId))

/-- Registry edges matching the outgoing filter of `getDependencies`. -/
def depOutgoingBase (allRefs : List CALReference)
    (objectType : CALObjectType) (objectId : Nat) : List CALReference :=
  allRefs.filter (fun ref =>
    ref.sourceType == objectType && ref.sourceId == objectId)

/-- Dependency graph query (`getDependencies`). -/
def getDependencies (db : SymbolDatabase) (allRefs : List CALReference)
    (objectType : CALObjectType) (objectId : Nat)
    (direction : DepDirection) : DependencyGraph :=
  let targetName := depTargetName db objectType objectId
  let incoming :=
    if direction = .incoming ∨ direction = .both then
      let allObjects :=
        db.getObjectsByType .Table ++ db.getObjectsByType .Page ++
          db.getObjectsByType .Codeunit ++ db.getObjectsByType .Report
      allObjects.foldl (depIncomingFromObj objectId targetName)
        (depIncomingBase db allRefs objectType objectId)
    else []
  let outgoing :=
    if direction = .outgoing ∨ direction = .both then
      let base := depOutgoingBase allRefs objectType objectId
      match db.getObjectById objectType objectId with
      | some sourceObj =>
        if sourceObj.type = .Table then
          depOutgoingFromTable db sourceObj base
        else base
      | none => base
    else []
  ⟨incoming, outgoing⟩

/-- Leftmost capture of `/(?:Sum|Count|Min|Max|Avg)\s*\(\s*"([^"]+)"/`
(case-sensitive, the relation-map variant). -/
def calcTargetCS (s : Str) : Option Str :=
  calcScanAux (fun k r => k.isPrefixOf r)
    ["Sum".toList, "Count".toList, "Min".toList, "Max".toList,
     "Avg".toList] s

/-- Relation-map scan of one field (`getTableRelations`' inner loop):
relation-constraint edges deduplicated by ids against everything
collected, then (when enabled) one aggregate-formula edge deduplicated
by ids against aggregate-formula edges only. -/
def relMapFromField (db : SymbolDatabase) (includeCalcFormula : Bool)
    (table : CALObject) (acc : List CALReference) (field : CALField) :
    List CALReference :=
  let acc3 := field.properties.foldl (fun a prop =>
    match prop.value.strVal? with
    | some s =>
      if prop.name == "TableRelation".toList && !s.isEmpty then
        let targetTableName := relTargetFromValue s
        match db.getObjectByName .Table targetTableName with
        | some targetTable =>
          let ref : CALReference :=
            ⟨.Table, table.id, table.name, "Field:".toList ++ field.name,
              .Table, some targetTable.id, targetTable.name, .TableRelation⟩
          addRefUnless (dupByIds ref) a ref
        | none => a
      else a
    | none => a) acc
  match field.calcFormula with
  | some f =>
    if includeCalcFormula && !f.isEmpty then
      match calcTargetCS f with
      | some inner =>
        let targetTableName := trimJS inner
        match db.getObjectByName .Table targetTableName with
        | some targetTable =>
          let ref : CALReference :=
            ⟨.Table, table.id, table.name, "Field:".toList ++ field.name,
              .Table, some targetTable.id, targetTable.name, .CalcFormula⟩
          addRefUnless
            (fun prior => dupByIds ref prior &&
              prior.referenceType == RefKind.CalcFormula) acc3 ref
        | none => acc3
      | none => acc3
    else acc3
  | none => acc3

/-- Registry edges surviving the relation-map filters. -/
def relMapBase (allRefs : List CALReference) (tableId : Option Nat)
    (includeCalcFormula : Bool) : List CALReference :=
  let filtered0 := allRefs.filter (fun ref =>
    if includeCalcFormula then
      ref.referenceType == RefKind.TableRelation ||
        ref.referenceType == RefKind.CalcFormula
    else ref.referenceType == RefKind.TableRelation)
  match tableId with
  | some tid => filtered0.filter (fun ref =>
      ref.sourceType == CALObjectType.Table && ref.sourceId == tid)
  | none => filtered0

/-- Relation map query (`getTableRelations`). -/
def getTableRelations (db : SymbolDatabase) (allRefs : List CALReference)
    (tableId : Option Nat) (includeCalcFormula : Bool) :
    List CALReference :=
  let filtered := relMapBase allRefs tableId includeCalcFormula
  (db.getObjectsByType .Table).foldl (fun acc table =>
    if (match tableId with
        | some tid => table.id != tid
        | none => false) then acc
    else table.fields.foldl (relMapFromField db includeCalcFormula table) acc)
    filtered

/-! Support definitions used only by the statements and proofs below. -/

/-- Pre-order contribution of the open stack: what its entries will add
to the final forest's pre-order listing once everything is closed. -/
def stackPre : List (CALControl × List CtrlTree) → List CALControl
  | [] => []
  | (c, kids) :: rest => stackPre rest ++ c :: preorderF kids.reverse

/-- Pre-order reading of a whole builder state. -/
def statePre (st : HierState) : List CALControl :=
  preorderF st.1 ++ stackPre st.2

/-- Bottom stack entry sits at indentation zero (the builder's running
invariant: roots are only ever opened at level zero). -/
def bottomZero (st : HierState) : Prop :=
  ∀ e, st.2.getLast? = some e → e.1.indentation = 0

/-- Database built by inserting a list of objects in order. -/
def buildDB (objs : List CALObject) : SymbolDatabase :=
  objs.foldl SymbolDatabase.addObject SymbolDatabase.empty

/-- Pairwise-distinct `(kind, id)` keys. -/
def distinctKeys (objs : List CALObject) : Prop :=
  objs.Pairwise (fun a b => (a.type, a.id) ≠ (b.type, b.id))

/-- Case-insensitive substring occurrence (whether a keyword occurs at
all, at any position). -/
def containsCIsub (hay needle : Str) : Bool :=
  match hay with
  | [] => startsCI needle []
  | _ :: rest => startsCI needle hay || containsCIsub rest needle

/-- Collected-edge discipline: the result extends the base list and
every added edge fails the duplicate test against everything before
it. -/
def ChainNoDup (dup : CALReference → CALReference → Bool) :
    List CALReference → List CALReference → Prop
  | _, [] => True
  | acc, r :: rest =>
    acc.any (dup r) = false ∧ ChainNoDup dup (acc ++ [r]) rest

/-- A result list arises from the base by dedup-guarded appends. -/
def AddedOK (dup : CALReference → CALReference → Bool)
    (base res : List CALReference) : Prop :=
  ∃ t, res = base ++ t ∧ ChainNoDup dup base t

/-- The relation map's duplicate test, per candidate kind: ids always,
and an aggregate-formula candidate additionally requires the prior edge
to be an aggregate-formula edge. -/
def dupRelMap (r prior : CALReference) : Bool :=
  dupByIds r prior &&
    (!(r.referenceType == RefKind.CalcFormula) ||
      prior.referenceType == RefKind.CalcFormula)

/-! Concrete fixtures for the closed statements below. -/

/-- A record-type entity named `Old` with one procedure. -/
def objOld : CALObject :=
  { type := .Table, id := 1, name := "Old".toList,
    fields := [⟨1, "F1".toList, "Code".toList, [], none⟩],
    procedures := [⟨1, "P1".toList, [], none, [], [], none⟩] }

/-- A replacement at the same `(kind, id)` named `New`, with different
fields and no procedures. -/
def objNew : CALObject :=
  { type := .Table, id := 1, name := "New".toList,
    fields := [⟨2, "F2".toList, "Text".toList, [], none⟩] }

/-- The database after inserting `objOld` alone. -/
def dbOnce : SymbolDatabase := SymbolDatabase.empty.addObject objOld

/-- The database after inserting `objOld` and then re-inserting at the
same `(kind, id)` as `objNew`. -/
def dbReplaced : SymbolDatabase := dbOnce.addObject objNew

/-- Procedural-unit source text with one numeric record variable, one
name record variable and one plain variable. -/
def cuText : Str :=
  ("OBJECT Codeunit 80 Sales-Post\n\x7b\n  CODE\n  \x7b\n    VAR\n" ++
   "      CustRec@1000 : Record 18;\n" ++
   "      GLRec@1001 : Record Customer;\n" ++
   "      Counter@1002 : Integer;\n\n" ++
   "    BEGIN\n    END.\n  \x7d\n\x7d\n").toList

/-- The variables the codeunit parser extracts from `cuText`. -/
def cuVars : List CALVariable :=
  [⟨"CustRec".toList, "Record".toList, some "18".toList, none, some false,
    none, none⟩,
   ⟨"GLRec".toList, "Record".toList, none, none, none, none, none⟩,
   ⟨"Counter".toList, "Integer".toList, none, none, none, none, none⟩]

/-- The parsed procedural-unit entity built from `cuText`'s variables. -/
def cuObj : CALObject :=
  { type := .Codeunit, id := 80, name := "Sales-Post".toList,
    vars := cuVars }

/-- A level-1 control arriving on an empty stack. -/
def ctrlL1 : CALControl := ⟨1, [], [], 1, none, []⟩

/-- A flat control sequence with two roots, a sibling run and a
several-level decrease. -/
def flatC4 : List CALControl :=
  [⟨1, [], [], 0, none, []⟩, ⟨2, [], [], 1, none, []⟩,
   ⟨3, [], [], 2, none, []⟩, ⟨4, [], [], 3, none, []⟩,
   ⟨5, [], [], 1, none, []⟩, ⟨6, [], [], 1, none, []⟩,
   ⟨7, [], [], 0, none, []⟩]

/-- Text whose only `PROPERTIES` occurrence sits inside
`OBJECT-PROPERTIES`. -/
def secText1 : Str := "OBJECT-PROPERTIES \x7b a \x7d".toList

/-- The same compound section followed by a genuine `PROPERTIES`
section on its own line. -/
def secText2 : Str :=
  "OBJECT-PROPERTIES \x7b a \x7d\n  PROPERTIES \x7b b \x7d".toList

/-- A section keyword with an opening brace but no matching closer. -/
def secText3 : Str := "PROPERTIES \x7b x".toList

/-- A table entity named `Target`. -/
def tblTarget : CALObject :=
  { type := .Table, id := 18, name := "Target".toList }

/-- A table with two distinct fields both referring to `Target`: one by
relation constraint, one by aggregate formula. -/
def tblSource : CALObject :=
  { type := .Table, id := 36, name := "Source".toList,
    fields :=
      [⟨1, "FA".toList, "Code".toList,
        [⟨"TableRelation".toList, .str "Target".toList⟩], none⟩,
       ⟨2, "FB".toList, "Decimal".toList, [],
        some "Sum(\"Target\".Amount WHERE (X=FIELD(Y)))".toList⟩] }

/-- Database holding `tblTarget` and `tblSource`. -/
def dbRel : SymbolDatabase := buildDB [tblTarget, tblSource]

/-- The relation-constraint edge `getTableRelations` synthesizes from
field `FA`. -/
def refFA : CALReference :=
  ⟨.Table, 36, "Source".toList, "Field:FA".toList, .Table, some 18,
    "Target".toList, .TableRelation⟩

/-- The aggregate-formula edge `getTableRelations` synthesizes from
field `FB`. -/
def refFB : CALReference :=
  ⟨.Table, 36, "Source".toList, "Field:FB".toList, .Table, some 18,
    "Target".toList, .CalcFormula⟩

/-- The `Payment Terms` relation-constraint fixture field. -/
def fldPayTerms : CALField :=
  ⟨3, "Payment Terms Code".toList, "Code10".toList,
    [⟨"TableRelation".toList,
      .str "\"Payment Terms\" WHERE (Type=CONST(Customer))".toList⟩], none⟩

/-- The `Cust. Ledger Entry` aggregate-formula fixture field. -/
def fldBalance : CALField :=
  ⟨25, "Balance".toList, "Decimal".toList, [],
    some "Sum(\"Cust. Ledger Entry\".Amount WHERE (Customer No.=FIELD(Customer Filter)))".toList⟩

/-- The customer table owning the two fixture fields. -/
def tblCustomer : CALObject :=
  { type := .Table, id := 18, name := "Customer".toList,
    fields := [fldPayTerms, fldBalance] }

/-- A record-type object text with a `KEYS` section but no `FIELDS`
section. -/
def tblTextNoFields : Str :=
  "OBJECT Table 3 Payment Terms\n\x7b\n  KEYS\n  \x7b\n  \x7d\n\x7d\n".toList

/-- A record-type object text with a `FIELDS` section but no `KEYS`
section. -/
def tblTextNoKeys : Str :=
  "OBJECT Table 3 Payment Terms\n\x7b\n  FIELDS\n  \x7b\n  \x7d\n\x7d\n".toList

/-- An object whose name embeds a line feed. -/
def objNlName : CALObject :=
  { type := .Table, id := 1, name := "A\nB".toList }

/-- Database holding only `objNlName`. -/
def dbNl : SymbolDatabase := buildDB [objNlName]

/-! Map lemmas. -/

theorem AMap.get?_set_self {κ ν : Type} [DecidableEq κ] (m : AMap κ ν)
    (k : κ) (v : ν) : (m.set k v).get? k = some v := by
  induction m with
  | nil => simp [AMap.set, AMap.get?]
  | cons hd tl ih =>
    obtain ⟨k', v'⟩ := hd
    by_cases h : k' = k
    · subst h; simp [AMap.set, AMap.get?]
    · simp [AMap.set, AMap.get?, h, ih]

theorem AMap.get?_set_ne {κ ν : Type} [DecidableEq κ] (m : AMap κ ν)
    (k k2 : κ) (v : ν) (h : k ≠ k2) :
    (m.set k v).get? k2 = m.get? k2 := by
  induction m with
  | nil =>
    simp only [AMap.set, AMap.get?, if_neg h]
  | cons hd tl ih =>
    obtain ⟨k', v'⟩ := hd
    by_cases hk : k' = k
    · subst hk
      simp [AMap.set, AMap.get?, h]
    · simp [AMap.set, AMap.get?, hk, ih]

theorem AMap.set_fresh {κ ν : Type} [DecidableEq κ] (m : AMap κ ν)
    (k : κ) (v : ν) (h : m.get? k = none) :
    m.set k v = m ++ [(k, v)] := by
  induction m with
  | nil => simp [AMap.set]
  | cons hd tl ih =>
    obtain ⟨k', v'⟩ := hd
    simp only [AMap.get?] at h
    by_cases hk : k' = k
    · simp [hk] at h
    · simp only [AMap.set, if_neg hk, List.cons_append, List.cons.injEq,
        true_and]
      exact ih (by simpa [hk] using h)

/-! Claim C1: what `addObject` replaces and what it leaves behind. -/

/--
Claim C1 (amended).  Inserting an entity replaces the `(kind,id)` entry,
rebuilds the kind bucket with no other entry of that id, rebuilds the
bucket of the new lowercased name with no other entry of that
`(kind,id)`, and (for record types) replaces the fields-index entry.
The procedures index is replaced only when the new version contributes
at least one procedure (and is left untouched when it contributes none),
and name buckets under every other lowercase name are left untouched —
so a prior version whose name differs survives under its old name.
-/
theorem C1_insert_replace_characterization (db : SymbolDatabase)
    (obj : CALObject) :
    ((db.addObject obj).getObjectById obj.type obj.id = some obj) ∧
    ((db.addObject obj).getObjectsByType obj.type =
      (db.getObjectsByType obj.type).filter (fun e => e.id != obj.id) ++
        [obj]) ∧
    (((db.addObject obj).objectsByName.get? (lowerStr obj.name)).getD [] =
      ((db.objectsByName.get? (lowerStr obj.name)).getD []).filter
        (fun e => !(e.type == obj.type && e.id == obj.id)) ++ [obj]) ∧
    (∀ k, k ≠ lowerStr obj.name →
      (db.addObject obj).objectsByName.get? k =
        db.objectsByName.get? k) ∧
    (extractProcedures obj ≠ [] →
      (db.addObject obj).getProceduresByObject obj.type obj.id =
        extractProcedures obj) ∧
    (extractProcedures obj = [] →
      (db.addObject obj).proceduresByObject = db.proceduresByObject) ∧
    (obj.type = .Table →
      (db.addObject obj).getFieldsByTable obj.id = obj.fields) := by
  refine ⟨?_, ?_, ?_, ?_, ?_, ?_, ?_⟩
  · simp [SymbolDatabase.addObject, SymbolDatabase.getObjectById,
      AMap.get?_set_self]
  · simp [SymbolDatabase.addObject, SymbolDatabase.getObjectsByType,
      AMap.get?_set_self]
  · simp [SymbolDatabase.addObject, AMap.get?_set_self]
  · intro k hk
    simp only [SymbolDatabase.addObject]
    exact AMap.get?_set_ne _ _ _ _ (fun h => hk h.symm)
  · intro h
    have h' : (extractProcedures obj).isEmpty = false := by
      cases hh : extractProcedures obj with
      | nil => exact absurd hh h
      | cons a l => simp [List.isEmpty]
    simp [SymbolDatabase.addObject, SymbolDatabase.getProceduresByObject,
      h', AMap.get?_set_self]
  · intro h
    simp [SymbolDatabase.addObject, h, List.isEmpty]
  · intro h
    simp [SymbolDatabase.addObject, SymbolDatabase.getFieldsByTable, h,
      AMap.get?_set_self]

/--
Claim C1, witness: replacing `(Table, 1) "Old"` by `(Table, 1) "New"`
leaves the bucket under `"old"` untouched and the procedures index
unchanged (the new version has no procedures).
-/
theorem C1_insert_replace_characterization_witness :
    ((dbOnce.addObject objNew).objectsByName.get? "old".toList =
      dbOnce.objectsByName.get? "old".toList) ∧
    ((dbOnce.addObject objNew).proceduresByObject =
      dbOnce.proceduresByObject) := by
  have h := C1_insert_replace_characterization dbOnce objNew
  exact ⟨h.2.2.2.1 "old".toList (by decide), h.2.2.2.2.2.1 (by decide)⟩

/--
Claim C1, counterexample to the claim as stated: after re-inserting
`(Table, 1)` under the new name `New`, a lookup by the prior version's
name still returns the prior entity, and the procedures index still
returns the prior version's procedures — stale entries survive.
-/
theorem C1_stale_entries_counterexample :
    dbReplaced.getObjectByName .Table "Old".toList = some objOld ∧
    dbReplaced.getObjectById .Table 1 = some objNew ∧
    objOld.name ≠ objNew.name ∧
    dbReplaced.getProceduresByObject .Table 1 = objOld.procedures ∧
    extractProcedures objNew = [] := by decide

/-! Hierarchy builder lemmas (claims C3 and C4). -/

theorem preorderF_append (l1 l2 : List CtrlTree) :
    preorderF (l1 ++ l2) = preorderF l1 ++ preorderF l2 := by
  induction l1 with
  | nil => simp [preorderF]
  | cons t ts ih =>
    cases t with
    | node c kids => simp [preorderF, ih]

theorem statePre_attach (t : CtrlTree) (roots : List CtrlTree)
    (rest : List (CALControl × List CtrlTree)) :
    statePre (attachFinished t (roots, rest)) =
      statePre (roots, rest) ++ preorderF [t] := by
  cases rest with
  | nil => simp [attachFinished, statePre, stackPre, preorderF_append]
  | cons hd rs =>
    obtain ⟨p, pk⟩ := hd
    cases t with
    | node c kids =>
      simp [attachFinished, statePre, stackPre, preorderF_append, preorderF]

theorem statePre_popWhile (lvl : Nat) (st : HierState) :
    statePre (popWhileGE lvl st) = statePre st := by
  induction st using popWhileGE.induct with
  | level => exact lvl
  | case1 roots => simp [popWhileGE]
  | case2 roots c kids rest hle ih =>
    rw [popWhileGE, if_pos hle, ih, statePre_attach]
    simp [statePre, stackPre, preorderF]
  | case3 roots c kids rest hle =>
    rw [popWhileGE, if_neg hle]

theorem popWhile_zero_stack (st : HierState) :
    (popWhileGE 0 st).2 = [] := by
  induction st using popWhileGE.induct with
  | level => exact 0
  | case1 roots => simp [popWhileGE]
  | case2 roots c kids rest hle ih =>
    rw [popWhileGE, if_pos hle]
    exact ih
  | case3 roots c kids rest hle => exact absurd (Nat.zero_le _) hle

theorem hierStep_ok_shape (st st1 : HierState) (c : CALControl)
    (h : hierStep st c = .ok st1) :
    st1 = ((popWhileGE c.indentation st).1,
      (c, []) :: (popWhileGE c.indentation st).2) := by
  unfold hierStep at h
  by_cases h0 : c.indentation = 0
  · simp only [h0, if_pos] at h
    cases h
    simp [h0]
  · simp only [h0, if_neg, if_false] at h
    cases hs : (popWhileGE c.indentation st).2 with
    | nil => rw [hs] at h; simp at h
    | cons a l =>
      rw [hs] at h
      simp only [Except.ok.injEq] at h
      exact h.symm

theorem hierStep_ok_pre (st st1 : HierState) (c : CALControl)
    (h : hierStep st c = .ok st1) : statePre st1 = statePre st ++ [c] := by
  have hpre := statePre_popWhile c.indentation st
  simp only [statePre] at hpre
  rw [hierStep_ok_shape st st1 c h]
  simp only [statePre, stackPre, List.reverse_nil, preorderF,
    List.append_nil]
  rw [← List.append_assoc, hpre]

theorem foldlM_ok_pre (cs : List CALControl) :
    ∀ st stF, cs.foldlM hierStep st = .ok stF →
      statePre stF = statePre st ++ cs := by
  induction cs with
  | nil =>
    intro st stF h
    simp only [List.foldlM, pure, Except.pure, Except.ok.injEq] at h
    simp [h]
  | cons c rest ih =>
    intro st stF h
    rw [List.foldlM_cons] at h
    cases hstep : hierStep st c with
    | error e =>
      rw [hstep] at h
      have h' : (Except.error e : Except Str HierState) = .ok stF := h
      simp at h'
    | ok st1 =>
      rw [hstep] at h
      have h' : rest.foldlM hierStep st1 = .ok stF := h
      have := ih st1 stF h'
      rw [this, hierStep_ok_pre st st1 c hstep]
      simp

theorem build_ok_preorder (flat : List CALControl)
    (forest : List CtrlTree)
    (h : buildControlHierarchy flat = .ok forest) :
    preorderF forest = flat := by
  unfold buildControlHierarchy at h
  cases hrun : flat.foldlM hierStep (([], []) : HierState) with
  | error e => rw [hrun] at h; simp [Except.map] at h
  | ok stF =>
    rw [hrun] at h
    simp only [Except.map, Except.ok.injEq] at h
    have hpre := foldlM_ok_pre flat ([], []) stF hrun
    have hflush := statePre_popWhile 0 stF
    have hstack := popWhile_zero_stack stF
    rw [hpre] at hflush
    simp only [statePre, stackPre, preorderF, List.nil_append] at hflush
    rw [hstack] at hflush
    simp only [stackPre, List.append_nil] at hflush
    rw [← h]
    simpa [statePre, stackPre] using hflush

/-- Bottom stack entry sits at indentation zero, phrased on a bare
stack. -/
def stackBottomZero (s : List (CALControl × List CtrlTree)) : Prop :=
  ∀ e, s.getLast? = some e → e.1.indentation = 0

theorem stackBottomZero_attach (t : CtrlTree) (p : CALControl)
    (pk : List CtrlTree) (rs : List (CALControl × List CtrlTree))
    (h : stackBottomZero ((p, pk) :: rs)) :
    stackBottomZero ((p, t :: pk) :: rs) := by
  intro e he
  cases rs with
  | nil =>
    simp [List.getLast?] at he
    have := h (p, pk) (by simp [List.getLast?])
    rw [← he]
    exact this
  | cons r rs' =>
    rw [List.getLast?_cons_cons] at he
    exact h e (by rw [List.getLast?_cons_cons]; exact he)

theorem popWhile_pos_stack (lvl : Nat) (hpos : 0 < lvl) (st : HierState)
    (hne : st.2 ≠ []) (hb : stackBottomZero st.2) :
    (popWhileGE lvl st).2 ≠ [] ∧ stackBottomZero (popWhileGE lvl st).2 := by
  induction st using popWhileGE.induct with
  | level => exact lvl
  | case1 roots => exact absurd rfl hne
  | case2 roots c kids rest hle ih =>
    rw [popWhileGE, if_pos hle]
    cases rest with
    | nil =>
      have h0 : c.indentation = 0 := hb (c, kids) (by simp [List.getLast?])
      rw [h0] at hle
      omega
    | cons r rs =>
      obtain ⟨p, pk⟩ := r
      have hb' : stackBottomZero ((p, pk) :: rs) := by
        intro e he
        exact hb e (by rw [List.getLast?_cons_cons]; exact he)
      exact ih (by simp [attachFinished])
        (by simpa [attachFinished] using
          stackBottomZero_attach (CtrlTree.node c kids.reverse) p pk rs hb')
  | case3 roots c kids rest hle =>
    rw [popWhileGE, if_neg hle]
    exact ⟨hne, hb⟩

theorem hierStep_ok_inv (st : HierState) (c : CALControl)
    (hne : st.2 ≠ []) (hb : stackBottomZero st.2) :
    ∃ st1, hierStep st c = .ok st1 ∧ st1.2 ≠ [] ∧ stackBottomZero st1.2 := by
  by_cases h0 : c.indentation = 0
  · refine ⟨((popWhileGE c.indentation st).1,
      (c, []) :: (popWhileGE c.indentation st).2), ?_, by simp, ?_⟩
    · unfold hierStep
      simp [h0]
    · rw [h0, popWhile_zero_stack st]
      intro e he
      simp [List.getLast?] at he
      rw [← he]
      exact h0
  · have hp := popWhile_pos_stack c.indentation (Nat.pos_of_ne_zero h0)
      st hne hb
    refine ⟨((popWhileGE c.indentation st).1,
      (c, []) :: (popWhileGE c.indentation st).2), ?_, by simp, ?_⟩
    · unfold hierStep
      rw [if_neg h0]
      cases hs : (popWhileGE c.indentation st).2 with
      | nil => exact absurd hs hp.1
      | cons a l => simp
    · cases hs : (popWhileGE c.indentation st).2 with
      | nil => exact absurd hs hp.1
      | cons a l =>
        intro e he
        have he' : ((c, ([] : List CtrlTree)) :: a :: l).getLast? = some e := he
        rw [List.getLast?_cons_cons] at he'
        exact hp.2 e (by rw [hs]; exact he')

theorem foldl_ok_of_inv (cs : List CALControl) :
    ∀ st : HierState, st.2 ≠ [] → stackBottomZero st.2 →
      ∃ stF, cs.foldlM hierStep st = .ok stF := by
  induction cs with
  | nil =>
    intro st _ _
    exact ⟨st, rfl⟩
  | cons c rest ih =>
    intro st hne hb
    obtain ⟨st1, hstep, hne1, hb1⟩ := hierStep_ok_inv st c hne hb
    obtain ⟨stF, hrest⟩ := ih st1 hne1 hb1
    refine ⟨stF, ?_⟩
    rw [List.foldlM_cons, hstep]
    exact hrest

theorem hierStep_first_zero (c : CALControl) (h0 : c.indentation = 0) :
    hierStep (([], []) : HierState) c = .ok ([], [(c, [])]) := by
  unfold hierStep
  rw [popWhileGE]
  simp [h0]

theorem hierStep_first_pos (c : CALControl) (h0 : c.indentation ≠ 0) :
    hierStep (([], []) : HierState) c = .error (hierErrMsg c) := by
  unfold hierStep
  rw [popWhileGE]
  simp [h0]

theorem build_nil : buildControlHierarchy ([] : List CALControl) = .ok [] := by
  have h : popWhileGE 0 (([], []) : HierState) = ([], []) := by
    rw [popWhileGE]
  unfold buildControlHierarchy
  simp only [List.foldlM_nil]
  show Except.ok (popWhileGE 0 (([], []) : HierState)).1 = _
  rw [h]

theorem build_fails_head_pos (c : CALControl) (rest : List CALControl)
    (hpos : 0 < c.indentation) :
    buildControlHierarchy (c :: rest) = .error (hierErrMsg c) := by
  unfold buildControlHierarchy
  rw [List.foldlM_cons, hierStep_first_pos c (by omega)]
  rfl

theorem build_succeeds_head_zero (flat : List CALControl)
    (h : flat = [] ∨ ∃ c rest, flat = c :: rest ∧ c.indentation = 0) :
    ∃ forest, buildControlHierarchy flat = .ok forest ∧
      preorderF forest = flat := by
  rcases h with rfl | ⟨c, rest, rfl, h0⟩
  · exact ⟨[], build_nil, by simp [preorderF]⟩
  · have hfirst := hierStep_first_zero c h0
    have hinv : ((([], [(c, [])]) : HierState)).2 ≠ [] := by simp
    have hbz : stackBottomZero ((([], [(c, [])]) : HierState)).2 := by
      intro e he
      simp [List.getLast?] at he
      rw [← he]
      exact h0
    obtain ⟨stF, hrun⟩ := foldl_ok_of_inv rest ([], [(c, [])]) hinv hbz
    have hall : (c :: rest).foldlM hierStep (([], []) : HierState) =
        .ok stF := by
      rw [List.foldlM_cons, hfirst]
      exact hrun
    refine ⟨(popWhileGE 0 stF).1, ?_, ?_⟩
    · unfold buildControlHierarchy
      rw [hall]
      rfl
    · exact build_ok_preorder _ _ (by
        unfold buildControlHierarchy
        rw [hall]
        rfl)

/--
Claim C3 (amended).  The builder pops while the stack top's level is
`≥` the incoming level; a level-0 item starts a new root and a
positive-level item becomes a child of the new stack top — but when the
stack is empty after popping (which happens exactly when the item is the
first of the list) a positive-level item raises an invalid-hierarchy
error instead of becoming a root.  Hence the pass fails exactly on a
non-empty list whose first item has positive level, and on success the
forest's pre-order traversal recovers the input.
-/
theorem C3_stack_pass_characterization (flat : List CALControl) :
    ((∃ c rest, flat = c :: rest ∧ 0 < c.indentation) →
      buildControlHierarchy flat =
        .error (hierErrMsg (flat.headD ⟨0, [], [], 0, none, []⟩))) ∧
    ((flat = [] ∨ ∃ c rest, flat = c :: rest ∧ c.indentation = 0) →
      ∃ forest, buildControlHierarchy flat = .ok forest ∧
        preorderF forest = flat) := by
  constructor
  · rintro ⟨c, rest, rfl, hpos⟩
    simpa using build_fails_head_pos c rest hpos
  · exact build_succeeds_head_zero flat

/--
Claim C3, witness: a single item at level 1 (stack empty after popping)
makes the builder fail rather than become a root.
-/
theorem C3_stack_pass_characterization_witness :
    buildControlHierarchy [ctrlL1] =
      .error (hierErrMsg (([ctrlL1] : List CALControl).headD
        ⟨0, [], [], 0, none, []⟩)) :=
  (C3_stack_pass_characterization [ctrlL1]).1 ⟨ctrlL1, [], rfl, by decide⟩

/--
Claim C3, counterexample to the claim as stated: the claim says an item
with positive level whose popping empties the stack becomes a new root,
but the builder raises the invalid-hierarchy error on it.
-/
theorem C3_positive_first_level_errors :
    buildControlHierarchy [ctrlL1] =
      .error ("Invalid control hierarchy: control 1 at indentation 1 has no parent".toList) := by
  rw [build_fails_head_pos ctrlL1 [] (by decide)]
  rfl

/--
Claim C4.  For a flat `(level, item)` sequence whose first item sits at
level 0 and in which no item's level exceeds its predecessor's level by
more than one, the hierarchy builder succeeds and the forest's pre-order
traversal (roots in order, each node before its children, siblings in
source order) recovers exactly the original items with their levels —
including runs of identical-level siblings, multiple roots, and level
decreases by more than one.
-/
theorem C4_preorder_roundtrip (flat : List CALControl)
    (h0 : ∀ c rest, flat = c :: rest → c.indentation = 0)
    (hstep : flat.Chain' (fun a b => b.indentation ≤ a.indentation + 1)) :
    ∃ forest, buildControlHierarchy flat = .ok forest ∧
      preorderF forest = flat := by
  cases flat with
  | nil => exact ⟨[], build_nil, by simp [preorderF]⟩
  | cons c rest =>
    exact build_succeeds_head_zero (c :: rest)
      (Or.inr ⟨c, rest, rfl, h0 c rest rfl⟩)

/--
Claim C4, witness: a sequence with two roots, an identical-level sibling
run and a two-level decrease round-trips through the builder.
-/
theorem C4_preorder_roundtrip_witness :
    ∃ forest, buildControlHierarchy flatC4 = .ok forest ∧
      preorderF forest = flatC4 := by
  refine C4_preorder_roundtrip flatC4 ?_
    (by simp [flatC4, List.chain'_cons])
  intro c rest h
  injection h with h1 h2
  rw [← h1]

/-! Search matcher lemmas (claim C6). -/

theorem glob_nil_iff (s : Str) : GlobMatches [] s ↔ s = [] := by
  constructor
  · intro h
    cases h
    rfl
  · rintro rfl
    exact GlobMatches.nil

theorem glob_cons_inv (c : Char) (p s : Str) (hc : c ≠ '*')
    (h : GlobMatches (c :: p) s) :
    ∃ d s', s = d :: s' ∧ eqCI c d = true ∧ GlobMatches p s' := by
  cases h with
  | lit hne hci hm => exact ⟨_, _, rfl, hci, hm⟩
  | star hu hm => exact absurd rfl hc

theorem glob_star_inv (p s : Str) (h : GlobMatches ('*' :: p) s) :
    ∃ u v, s = u ++ v ∧ (∀ c ∈ u, isLineTerm c = false) ∧
      GlobMatches p v := by
  cases h with
  | lit hne hci hm => exact absurd rfl hne
  | star hu hm => exact ⟨_, _, rfl, hu, hm⟩

theorem glob_cons_cons_iff (c : Char) (p : Str) (x : Char) (xs : Str)
    (hc : c ≠ '*') :
    GlobMatches (c :: p) (x :: xs) ↔
      eqCI c x = true ∧ GlobMatches p xs := by
  constructor
  · intro h
    obtain ⟨d, s', heq, hci, hm⟩ := glob_cons_inv c p (x :: xs) hc h
    injection heq with h1 h2
    subst h1
    subst h2
    exact ⟨hci, hm⟩
  · rintro ⟨hci, hm⟩
    exact GlobMatches.lit hc hci hm

theorem glob_cons_nil_iff (c : Char) (p : Str) (hc : c ≠ '*') :
    ¬ GlobMatches (c :: p) [] := by
  intro h
  obtain ⟨d, s', heq, _, _⟩ := glob_cons_inv c p [] hc h
  cases heq

theorem glob_star_iff (p : Str) (s : Str) :
    GlobMatches ('*' :: p) s ↔
      GlobMatches p s ∨
        ∃ x xs, s = x :: xs ∧ isLineTerm x = false ∧
          GlobMatches ('*' :: p) xs := by
  constructor
  · intro h
    obtain ⟨u, v, rfl, hu, hm⟩ := glob_star_inv p s h
    cases u with
    | nil => exact Or.inl hm
    | cons x u' =>
      refine Or.inr ⟨x, u' ++ v, rfl, hu x (by simp), ?_⟩
      exact GlobMatches.star (fun d hd => hu d (by simp [hd])) hm
  · rintro (h | ⟨x, xs, rfl, hlt, h⟩)
    · exact (List.nil_append s) ▸ GlobMatches.star (by simp) h
    · obtain ⟨u, v, heq, hu, hm⟩ := glob_star_inv p xs h
      subst heq
      have hx : x :: (u ++ v) = (x :: u) ++ v := rfl
      rw [hx]
      refine GlobMatches.star ?_ hm
      intro d hd
      rcases List.mem_cons.mp hd with rfl | hd'
      · exact hlt
      · exact hu d hd'

theorem compile_star (p : Str) :
    compileSearchPattern ('*' :: p) = '.' :: '*' :: compileSearchPattern p := by
  simp [compileSearchPattern]

theorem compile_esc (c : Char) (p : Str) (hs : c ≠ '*')
    (hm : escMetaChars.contains c = true) :
    compileSearchPattern (c :: p) =
      bsChar :: c :: compileSearchPattern p := by
  have hm' : c ∈ escMetaChars := by
    simpa using hm
  simp [compileSearchPattern, hs, hm']

theorem compile_lit (c : Char) (p : Str) (hs : c ≠ '*')
    (hm : escMetaChars.contains c = false) :
    compileSearchPattern (c :: p) = c :: compileSearchPattern p := by
  have hm' : c ∉ escMetaChars := by
    simpa using hm
  simp [compileSearchPattern, hs, hm']

theorem escMeta_absent_ne (c : Char)
    (hm : escMetaChars.contains c = false) :
    c ≠ bsChar ∧ c ≠ '.' := by
  have hm' : c ∉ escMetaChars := by
    simpa using hm
  constructor
  · rintro rfl
    exact hm' (by decide)
  · rintro rfl
    exact hm' (by decide)

theorem rxTestF_nil_pat (f : Nat) (s : Str) :
    rxTestF (f + 1) [] s = s.isEmpty := rfl

theorem rxTestF_dotstar_nil (f : Nat) (cp : Str) :
    rxTestF (f + 1) ('.' :: '*' :: cp) [] = rxTestF f cp [] := by
  have hbs : ('.' == bsChar) = false := by decide
  simp [rxTestF, hbs]

theorem rxTestF_dotstar_cons (f : Nat) (cp : Str) (x : Char) (xs : Str) :
    rxTestF (f + 1) ('.' :: '*' :: cp) (x :: xs) =
      (rxTestF f cp (x :: xs) ||
        (!isLineTerm x && rxTestF f ('.' :: '*' :: cp) xs)) := by
  have hbs : ('.' == bsChar) = false := by decide
  simp [rxTestF, hbs]

theorem rxTestF_esc_nil (f : Nat) (c : Char) (cp : Str) :
    rxTestF (f + 1) (bsChar :: c :: cp) [] = false := by
  simp [rxTestF]

theorem rxTestF_esc_cons (f : Nat) (c : Char) (cp : Str) (x : Char)
    (xs : Str) :
    rxTestF (f + 1) (bsChar :: c :: cp) (x :: xs) =
      (eqCI c x && rxTestF f cp xs) := by
  simp [rxTestF]

theorem rxTestF_lit_nil (f : Nat) (c : Char) (cp : Str)
    (hb : c ≠ bsChar) (hd : c ≠ '.') :
    rxTestF (f + 1) (c :: cp) [] = false := by
  have hb' : (c == bsChar) = false := beq_eq_false_iff_ne.mpr hb
  have hd' : (c == '.') = false := beq_eq_false_iff_ne.mpr hd
  simp [rxTestF, hb', hd']

theorem rxTestF_lit_cons (f : Nat) (c : Char) (cp : Str) (x : Char)
    (xs : Str) (hb : c ≠ bsChar) (hd : c ≠ '.') :
    rxTestF (f + 1) (c :: cp) (x :: xs) =
      (eqCI c x && rxTestF f cp xs) := by
  have hb' : (c == bsChar) = false := beq_eq_false_iff_ne.mpr hb
  have hd' : (c == '.') = false := beq_eq_false_iff_ne.mpr hd
  simp [rxTestF, hb', hd']

/-- With enough fuel, the compiled-pattern interpreter decides exactly
the specification-side wildcard relation. -/
theorem rxTestF_glob (fuel : Nat) : ∀ (p s : Str),
    (compileSearchPattern p).length + s.length < fuel →
    (rxTestF fuel (compileSearchPattern p) s = true ↔ GlobMatches p s) := by
  induction fuel with
  | zero =>
    intro p s hf
    exact absurd hf (by omega)
  | succ f ih =>
    intro p s hf
    cases p with
    | nil =>
      rw [show compileSearchPattern [] = [] from rfl]
      rw [rxTestF_nil_pat, glob_nil_iff]
      cases s <;> simp
    | cons c rest =>
      by_cases hstar : c = '*'
      · subst hstar
        rw [compile_star] at hf ⊢
        rw [glob_star_iff]
        cases s with
        | nil =>
          rw [rxTestF_dotstar_nil]
          simp only [List.length_cons, List.length_nil] at hf
          rw [ih rest [] (by simp; omega)]
          constructor
          · exact Or.inl
          · rintro (h | ⟨x, xs, hx, _, _⟩)
            · exact h
            · cases hx
        | cons x xs =>
          rw [rxTestF_dotstar_cons]
          simp only [List.length_cons] at hf
          rw [Bool.or_eq_true, Bool.and_eq_true]
          rw [ih rest (x :: xs) (by simp; omega)]
          rw [show ('.' :: '*' :: compileSearchPattern rest) =
                compileSearchPattern ('*' :: rest) from
              (compile_star rest).symm]
          rw [ih ('*' :: rest) xs (by rw [compile_star]; simp; omega)]
          constructor
          · rintro (h | ⟨hlt, h⟩)
            · exact Or.inl h
            · exact Or.inr ⟨x, xs, rfl, by simpa using hlt, h⟩
          · rintro (h | ⟨x2, xs2, hx, hlt, h⟩)
            · exact Or.inl h
            · injection hx with h1 h2
              subst h1
              subst h2
              exact Or.inr ⟨by simp [hlt], h⟩
      · by_cases hesc : escMetaChars.contains c = true
        · rw [compile_esc c rest hstar hesc] at hf ⊢
          cases s with
          | nil =>
            rw [rxTestF_esc_nil]
            simp only [Bool.false_eq_true, false_iff]
            exact glob_cons_nil_iff c rest hstar
          | cons x xs =>
            rw [rxTestF_esc_cons]
            simp only [List.length_cons] at hf
            rw [Bool.and_eq_true]
            rw [ih rest xs (by omega)]
            exact (glob_cons_cons_iff c rest x xs hstar).symm
        · have hesc2 : escMetaChars.contains c = false :=
            Bool.eq_false_iff.mpr hesc
          obtain ⟨hnb, hnd⟩ := escMeta_absent_ne c hesc2
          rw [compile_lit c rest hstar hesc2] at hf ⊢
          cases s with
          | nil =>
            rw [rxTestF_lit_nil f c _ hnb hnd]
            simp only [Bool.false_eq_true, false_iff]
            exact glob_cons_nil_iff c rest hstar
          | cons x xs =>
            rw [rxTestF_lit_cons f c _ x xs hnb hnd]
            simp only [List.length_cons] at hf
            rw [Bool.and_eq_true]
            rw [ih rest xs (by omega)]
            exact (glob_cons_cons_iff c rest x xs hstar).symm

/-- `rxTest` on a compiled pattern decides the wildcard relation. -/
theorem rxTest_glob (p s : Str) :
    rxTest (compileSearchPattern p) s = true ↔ GlobMatches p s :=
  rxTestF_glob ((compileSearchPattern p).length + s.length + 1) p s
    (by omega)

theorem bool_eq_of_true_iff (a b : Bool) (h : (a = true) ↔ (b = true)) :
    a = b := by
  cases a <;> cases b <;> simp_all

theorem glob_append_nostar (p1 : Str) : ∀ (p2 s : Str), '*' ∉ p1 →
    GlobMatches (p1 ++ p2) s →
    ∃ u v, s = u ++ v ∧ eqCIStr p1 u = true ∧ GlobMatches p2 v := by
  induction p1 with
  | nil =>
    intro p2 s _ h
    exact ⟨[], s, rfl, rfl, h⟩
  | cons c p2 ih =>
    intro p3 s hns h
    have hc : c ≠ '*' := fun hh => hns (hh ▸ List.mem_cons_self c p2)
    rw [List.cons_append] at h
    obtain ⟨d, s2, rfl, hci, hm⟩ := glob_cons_inv c (p2 ++ p3) s hc h
    obtain ⟨u, v, rfl, he, hm2⟩ :=
      ih p3 s2 (fun hh => hns (List.mem_cons_of_mem c hh)) hm
    exact ⟨d :: u, v, rfl, by simp [eqCIStr, hci, he], hm2⟩

theorem glob_nostar_total (p s : Str) (hns : '*' ∉ p)
    (h : GlobMatches p s) : eqCIStr p s = true := by
  obtain ⟨u, v, rfl, he, hm⟩ :=
    glob_append_nostar p [] (s := _) hns (by simpa using h)
  rw [glob_nil_iff] at hm
  subst hm
  simpa using he

/-- Patterns agreeing positionwise (stars at the same spots, other
characters equal up to case) match the same subjects. -/
theorem glob_congr (p q : Str)
    (hpq : List.Forall₂
      (fun a b => (a = '*' ∧ b = '*') ∨
        (a ≠ '*' ∧ b ≠ '*' ∧ a.toLower = b.toLower)) p q) :
    ∀ s, GlobMatches p s ↔ GlobMatches q s := by
  induction hpq with
  | nil =>
    intro s
    exact Iff.rfl
  | @cons a b p2 q2 hab hrest ih =>
    intro s
    rcases hab with ⟨rfl, rfl⟩ | ⟨ha, hb, hab⟩
    · constructor
      · intro h
        obtain ⟨u, v, rfl, hu, hm⟩ := glob_star_inv p2 s h
        exact GlobMatches.star hu ((ih v).mp hm)
      · intro h
        obtain ⟨u, v, rfl, hu, hm⟩ := glob_star_inv q2 s h
        exact GlobMatches.star hu ((ih v).mpr hm)
    · constructor
      · intro h
        obtain ⟨d, s2, rfl, hci, hm⟩ := glob_cons_inv a p2 s ha h
        refine GlobMatches.lit hb ?_ ((ih s2).mp hm)
        simpa [eqCI, hab] using hci
      · intro h
        obtain ⟨d, s2, rfl, hci, hm⟩ := glob_cons_inv b q2 s hb h
        refine GlobMatches.lit ha ?_ ((ih s2).mpr hm)
        simpa [eqCI, hab] using hci

theorem searchObjects_base (db : SymbolDatabase) (pattern : Str)
    (type? : Option CALObjectType) :
    db.searchObjects pattern type? none 0 =
      (db.searchScope type?).filter
        (fun o => rxTest (compileSearchPattern pattern) o.name) := by
  simp [SymbolDatabase.searchObjects, sliceJS]

/--
Claim C6 (corrected): search compiles the pattern to an anchored
case-insensitive whole-name matcher in which `*` matches any substring
FREE OF LINE TERMINATORS (not any substring whatsoever — the compiled
regex uses an unflagged `.`, see the counterexample) and every other
regex metacharacter is treated literally; matches come back in stable
scope order (the kind bucket when scoped, id-map insertion order when
unscoped), offset is applied before limit, an offset beyond the result
count yields an empty slice, `CUST*` and `cust*` return identical
results, and `Sales*Header` matches only names carrying the prefix and
the suffix in order (up to case).
-/
theorem C6_search_characterization (db : SymbolDatabase)
    (pattern : Str) (type? : Option CALObjectType) (lim offset : Nat) :
    (∀ o, o ∈ db.searchObjects pattern type? none 0 ↔
        o ∈ db.searchScope type? ∧ GlobMatches pattern o.name) ∧
    (db.searchObjects pattern type? none 0).Sublist
      (db.searchScope type?) ∧
    db.searchObjects pattern type? (some lim) offset =
      ((db.searchObjects pattern type? none 0).drop offset).take lim ∧
    db.searchObjects pattern type? none offset =
      (db.searchObjects pattern type? none 0).drop offset ∧
    ((db.searchObjects pattern type? none 0).length ≤ offset →
      db.searchObjects pattern type? (some lim) offset = []) ∧
    db.searchObjects "CUST*".toList type? (some lim) offset =
      db.searchObjects "cust*".toList type? (some lim) offset ∧
    (∀ name, GlobMatches "Sales*Header".toList name →
      ∃ u mid v, name = u ++ mid ++ v ∧
        eqCIStr "Sales".toList u = true ∧
        eqCIStr "Header".toList v = true) := by
  refine ⟨?_, ?_, ?_, ?_, ?_, ?_, ?_⟩
  · intro o
    rw [searchObjects_base]
    simp [List.mem_filter, rxTest_glob]
  · rw [searchObjects_base]
    exact List.filter_sublist _
  · rw [searchObjects_base]
    simp [SymbolDatabase.searchObjects, sliceJS]
  · rw [searchObjects_base]
    simp [SymbolDatabase.searchObjects, sliceJS]
  · intro hlen
    rw [searchObjects_base] at hlen
    simp only [SymbolDatabase.searchObjects, sliceJS]
    rw [List.drop_eq_nil_of_le hlen]
    simp
  · have hpt : ∀ s, GlobMatches "CUST*".toList s ↔
        GlobMatches "cust*".toList s := by
      apply glob_congr
      refine .cons (Or.inr ⟨by decide, by decide, by decide⟩)
        (.cons (Or.inr ⟨by decide, by decide, by decide⟩)
          (.cons (Or.inr ⟨by decide, by decide, by decide⟩)
            (.cons (Or.inr ⟨by decide, by decide, by decide⟩)
              (.cons (Or.inl ⟨rfl, rfl⟩) .nil))))
    have hrx : ∀ o ∈ db.searchScope type?,
        rxTest (compileSearchPattern "CUST*".toList) o.name =
          rxTest (compileSearchPattern "cust*".toList) o.name := by
      intro o _
      exact bool_eq_of_true_iff _ _
        ((rxTest_glob _ _).trans ((hpt o.name).trans
          (rxTest_glob _ _).symm))
    simp only [SymbolDatabase.searchObjects]
    rw [List.filter_congr hrx]
  · intro name h
    have hdec : ("Sales*Header".toList : Str) =
        "Sales".toList ++ '*' :: "Header".toList := by decide
    rw [hdec] at h
    obtain ⟨u, v1, rfl, hu, hm1⟩ :=
      glob_append_nostar "Sales".toList ('*' :: "Header".toList) _
        (by decide) h
    obtain ⟨mid, v2, rfl, hmid, hm2⟩ := glob_star_inv "Header".toList v1 hm1
    exact ⟨u, mid, v2, (List.append_assoc u mid v2).symm, hu,
      glob_nostar_total "Header".toList v2 (by decide) hm2⟩

/--
Claim C6, witness: pagination conjunct instantiated on the two-table
fixture database.
-/
theorem C6_search_characterization_witness :
    dbRel.searchObjects "target".toList none (some 5) 0 =
      ((dbRel.searchObjects "target".toList none none 0).drop 0).take 5 :=
  (C6_search_characterization dbRel ("target".toList) none 5 0).2.2.1

/--
Claim C6, counterexample to the original wording: `*` does not match
every substring — a name containing a line feed is in the search scope
and has the shape prefix-substring-suffix for the pattern `A*B`, yet the
search returns nothing, because `*` compiles to `.*` and an unflagged JS
`.` refuses line terminators.
-/
theorem C6_star_not_any_substring :
    objNlName.name = ['A'] ++ [nlChar] ++ ['B'] ∧
    objNlName ∈ dbNl.searchScope none ∧
    dbNl.searchObjects "A*B".toList none none 0 = [] := by
  refine ⟨by decide, by decide, by decide⟩

/-! Section extractor lemmas (claim C5). -/

theorem startsCI_drop_of_not_contains (name : Str) : ∀ (s : Str),
    containsCIsub s name = false →
    ∀ n, startsCI name (s.drop n) = false := by
  intro s
  induction s with
  | nil =>
    intro h n
    cases n <;> simpa [containsCIsub] using h
  | cons c rest ih =>
    intro h n
    rw [containsCIsub, Bool.or_eq_false_iff] at h
    cases n with
    | zero => exact h.1
    | succ m =>
      rw [List.drop_succ_cons]
      exact ih h.2 m

theorem sectionHeadLen_none (suffix name : Str)
    (h : startsCI name suffix = false) :
    sectionHeadLen suffix name = none := by
  simp [sectionHeadLen, h]

theorem sectionLineLen_none (suffix name : Str)
    (h : ∀ n, startsCI name (suffix.drop n) = false) :
    sectionLineLen suffix name = none := by
  have hw := sectionHeadLen_none _ name (h (suffix.takeWhile isWsJS).length)
  simp [sectionLineLen, hw]

theorem findWordBoundaryAux_none (name : Str) : ∀ (suffix : Str)
    (b : Bool) (pos : Nat),
    (∀ n, startsCI name (suffix.drop n) = false) →
    findWordBoundaryAux name b suffix pos = none := by
  intro suffix
  induction suffix with
  | nil =>
    intro b pos h
    have hs := sectionHeadLen_none [] name (h 0)
    simp [findWordBoundaryAux, hs]
  | cons c rest ih =>
    intro b pos h
    have hs := sectionHeadLen_none (c :: rest) name (h 0)
    rw [findWordBoundaryAux.eq_def, hs]
    simp only [ite_self]
    exact ih (isWordChar c) (pos + 1)
      (fun n => by simpa using h (n + 1))

theorem findLineStartAux_none (name : Str) : ∀ (suffix : Str)
    (b : Bool) (pos : Nat),
    (∀ n, startsCI name (suffix.drop n) = false) →
    findLineStartAux name b suffix pos = none := by
  intro suffix
  induction suffix with
  | nil =>
    intro b pos h
    have hs := sectionLineLen_none [] name h
    simp [findLineStartAux, hs]
  | cons c rest ih =>
    intro b pos h
    have hs := sectionLineLen_none (c :: rest) name h
    rw [findLineStartAux.eq_def, hs]
    simp only [ite_self]
    exact ih (isLineTerm c) (pos + 1)
      (fun n => by simpa using h (n + 1))

/--
Claim C5 (corrected): only the exact extractor restricts the keyword
match to start-of-line-after-whitespace — the generic extractor matches
at any word boundary, and a hyphen is a boundary, so `PROPERTIES` inside
`OBJECT-PROPERTIES` does match there (see the counterexample); the exact
extractor skips the compound name and finds a genuine own-line section;
both extractors fail when the keyword is absent anywhere in the text;
and a missing closing delimiter does not fail — the depth scan stops at
the end of the input and the extractor returns the remaining text
truncated by one character (see the counterexample).
-/
theorem C5_section_extractor (content name : Str)
    (habs : containsCIsub content name = false) :
    extractSection content name = none ∧
    extractSectionExact content name = none ∧
    extractSectionExact secText1 "PROPERTIES".toList = none ∧
    extractSectionExact secText2 "PROPERTIES".toList =
      some " b ".toList := by
  have h := startsCI_drop_of_not_contains name content habs
  refine ⟨?_, ?_, by decide, by decide⟩
  · simp [extractSection, findWordBoundaryAux_none name content false 0 h]
  · simp [extractSectionExact, findLineStartAux_none name content true 0 h]

/--
Claim C5, witness: a keyword absent from the fixture text makes both
extractors return nothing.
-/
theorem C5_section_extractor_witness :
    containsCIsub secText1 "ZZZ".toList = false ∧
    extractSection secText1 "ZZZ".toList = none :=
  ⟨by decide, (C5_section_extractor secText1 ("ZZZ".toList)
    (by decide)).1⟩

/--
Claim C5, counterexample to the original wording: the generic extractor
does match `PROPERTIES` inside `OBJECT-PROPERTIES` (word boundary at the
hyphen), and a text with no matching closer does not fail — the exact
extractor returns the truncated trailing text.
-/
theorem C5_word_boundary_counterexample :
    extractSection secText1 "PROPERTIES".toList = some " a ".toList ∧
    extractSectionExact secText3 "PROPERTIES".toList =
      some " ".toList := by
  refine ⟨by decide, by decide⟩

/-! Declaration parser lemmas (claim C7). -/

theorem isEmpty_false_of_ne {α : Type} (l : List α) (h : l ≠ []) :
    l.isEmpty = false := by
  cases l with
  | nil => exact absurd rfl h
  | cons a l => rfl

theorem takeWhile_all_append {α : Type} (p : α → Bool) (u v : List α)
    (hu : ∀ x ∈ u, p x = true) :
    (u ++ v).takeWhile p = u ++ v.takeWhile p := by
  induction u with
  | nil => simp
  | cons a u ih =>
    have ha : p a = true := hu a (List.mem_cons_self a u)
    simp [List.takeWhile_cons, ha,
      ih (fun x hx => hu x (List.mem_cons_of_mem a hx))]

theorem drop_takeWhile_length {α : Type} (p : α → Bool) (l : List α) :
    l.drop (l.takeWhile p).length = l.dropWhile p := by
  induction l with
  | nil => rfl
  | cons a l ih =>
    by_cases h : p a = true
    · simp [List.takeWhile_cons, List.dropWhile_cons, h, ih]
    · have h2 : p a = false := by simpa using h
      simp [List.takeWhile_cons, List.dropWhile_cons, h2]

theorem dropWhile_head_false {α : Type} (p : α → Bool) (c : α)
    (r : List α) : ∀ (l : List α), l.dropWhile p = c :: r →
    p c = false := by
  intro l
  induction l with
  | nil => intro h; cases h
  | cons a l ih =>
    intro h
    rw [List.dropWhile_cons] at h
    by_cases ha : p a = true
    · rw [if_pos ha] at h
      exact ih h
    · rw [if_neg ha] at h
      injection h with h1 _
      subst h1
      simpa using ha

theorem mem_takeWhile_pred {α : Type} (p : α → Bool) (x : α) :
    ∀ (l : List α), x ∈ l.takeWhile p → p x = true := by
  intro l
  induction l with
  | nil => intro h; cases h
  | cons a l ih =>
    intro h
    rw [List.takeWhile_cons] at h
    by_cases ha : p a = true
    · rw [if_pos ha] at h
      rcases List.mem_cons.mp h with rfl | h2
      · exact ha
      · exact ih h2
    · rw [if_neg ha] at h
      cases h

theorem nil_isPrefixOf (l : Str) : ([] : Str).isPrefixOf l = true := by
  cases l <;> rfl

theorem isPrefixOf_cons_cons (a b : Char) (u v : Str) :
    (a :: u).isPrefixOf (b :: v) = (a == b && u.isPrefixOf v) := rfl

theorem isPrefixOf_append_self (u v : Str) :
    u.isPrefixOf (u ++ v) = true := by
  induction u with
  | nil => exact nil_isPrefixOf v
  | cons a u ih => simp [isPrefixOf_cons_cons, ih]

theorem eq_append_drop_of_isPrefixOf (u : Str) : ∀ (v : Str),
    u.isPrefixOf v = true → v = u ++ v.drop u.length := by
  induction u with
  | nil => intro v _; simp
  | cons a u ih =>
    intro v h
    cases v with
    | nil => cases h
    | cons b v =>
      simp only [List.isPrefixOf, Bool.and_eq_true, beq_iff_eq] at h
      obtain ⟨rfl, h2⟩ := h
      simp only [List.length_cons, List.drop_succ_cons, List.cons_append]
      exact congrArg (List.cons a) (ih v h2)

theorem dropWhile_cons_ne_nil {α : Type} (p : α → Bool) (c : α)
    (l : List α) (hc : p c = false) :
    (c :: l).dropWhile p = c :: l := by
  simp [List.dropWhile_cons, hc]

theorem trimJS_cons_ne_nil (c : Char) (n : Str)
    (hc : isWsJS c = false) : trimJS (c :: n) ≠ [] := by
  rw [trimJS, dropWhile_cons_ne_nil isWsJS c n hc]
  intro h
  rw [List.reverse_eq_nil_iff, List.dropWhile_eq_nil_iff] at h
  have := h c (by simp)
  rw [hc] at this
  cases this

theorem trimJS_single_ws (c : Char) (h : isWsJS c = true) :
    trimJS [c] = [] := by
  simp [trimJS, List.dropWhile_cons, h]

theorem ws_char_cases (c : Char) (h : isWsJS c = true) :
    c = Char.ofNat 32 ∨ c = Char.ofNat 9 ∨ c = Char.ofNat 10 ∨
    c = Char.ofNat 13 ∨ c = Char.ofNat 11 ∨ c = Char.ofNat 12 ∨
    c = Char.ofNat 8232 ∨ c = Char.ofNat 8233 := by
  simpa [isWsJS, or_assoc] using h

theorem digit_not_ws (c : Char) (h : c.isDigit = true) :
    isWsJS c = false := by
  cases hw : isWsJS c
  · rfl
  · exfalso
    rcases ws_char_cases c hw with h1|h1|h1|h1|h1|h1|h1|h1 <;>
      subst h1 <;> exact absurd h (by decide)

theorem ws_not_digit (c : Char) (h : isWsJS c = true) :
    c.isDigit = false := by
  cases hd : c.isDigit
  · rfl
  · exact absurd (digit_not_ws c hd) (by simp [h])

theorem kindTok_head_not_ws (t : CALObjectType) :
    ∃ a r, kindTok t = a :: r ∧ isWsJS a = false := by
  cases t <;> exact ⟨_, _, rfl, by decide⟩

theorem matchKindTok_self (t : CALObjectType) (x : Str) :
    matchKindTok (kindTok t ++ x) = some (t, x) := by
  cases t <;>
    simp [matchKindTok, kindTokens, kindTok, List.find?,
      isPrefixOf_cons_cons, nil_isPrefixOf]

theorem kindTokens_tok (p : Str × CALObjectType)
    (hp : p ∈ kindTokens) : p.1 = kindTok p.2 := by
  simp only [kindTokens, List.mem_cons, List.not_mem_nil, or_false] at hp
  rcases hp with rfl|rfl|rfl|rfl|rfl|rfl|rfl|rfl <;> rfl

/-- Evaluation of the declaration matcher on a line in canonical
decomposed form. -/
theorem matchDeclLine_shape (t : CALObjectType) (w1 w2 d2 w4 n2 : Str)
    (dc wc c : Char)
    (hw1 : w1 ≠ []) (hw1a : ∀ x ∈ w1, isWsJS x = true)
    (hw2 : w2 ≠ []) (hw2a : ∀ x ∈ w2, isWsJS x = true)
    (hda : ∀ x ∈ dc :: d2, x.isDigit = true)
    (hw3a : ∀ x ∈ wc :: w4, isWsJS x = true)
    (hc : isWsJS c = false)
    (hlt : ∀ x ∈ c :: n2, isLineTerm x = false) :
    matchDeclLine ("OBJECT".toList ++ (w1 ++ (kindTok t ++
      (w2 ++ ((dc :: d2) ++ ((wc :: w4) ++ (c :: n2))))))) =
      some (t, dc :: d2, c :: n2) := by
  obtain ⟨ka, kr, hk, hkna⟩ := kindTok_head_not_ws t
  have hdcw : isWsJS dc = false :=
    digit_not_ws dc (hda dc (List.mem_cons_self _ _))
  have hwcd : Char.isDigit wc = false :=
    ws_not_digit wc (hw3a wc (List.mem_cons_self _ _))
  have hpre : ("OBJECT".toList : Str).isPrefixOf ("OBJECT".toList ++
      (w1 ++ (kindTok t ++ (w2 ++ ((dc :: d2) ++
        ((wc :: w4) ++ (c :: n2))))))) = true :=
    isPrefixOf_append_self _ _
  have h6 : (6 : Nat) = ("OBJECT".toList : Str).length := by decide
  have hdrop6 : ("OBJECT".toList ++ (w1 ++ (kindTok t ++
      (w2 ++ ((dc :: d2) ++ ((wc :: w4) ++ (c :: n2))))))).drop 6 =
      w1 ++ (kindTok t ++ (w2 ++ ((dc :: d2) ++
        ((wc :: w4) ++ (c :: n2))))) := by
    rw [h6]
    exact List.drop_left _ _
  have htake1 : (w1 ++ (kindTok t ++ (w2 ++ ((dc :: d2) ++
      ((wc :: w4) ++ (c :: n2)))))).takeWhile isWsJS = w1 := by
    rw [takeWhile_all_append isWsJS w1 _ hw1a, hk]
    simp [List.takeWhile_cons, hkna]
  have hw1e : w1.isEmpty = false := isEmpty_false_of_ne w1 hw1
  have hdropw1 : (w1 ++ (kindTok t ++ (w2 ++ ((dc :: d2) ++
      ((wc :: w4) ++ (c :: n2)))))).drop w1.length =
      kindTok t ++ (w2 ++ ((dc :: d2) ++ ((wc :: w4) ++ (c :: n2)))) :=
    List.drop_left _ _
  have hmk := matchKindTok_self t
    (w2 ++ ((dc :: d2) ++ ((wc :: w4) ++ (c :: n2))))
  have htake2 : (w2 ++ ((dc :: d2) ++
      ((wc :: w4) ++ (c :: n2)))).takeWhile isWsJS = w2 := by
    rw [takeWhile_all_append isWsJS w2 _ hw2a]
    simp [List.takeWhile_cons, hdcw]
  have hw2e : w2.isEmpty = false := isEmpty_false_of_ne w2 hw2
  have hdropw2 : (w2 ++ ((dc :: d2) ++
      ((wc :: w4) ++ (c :: n2)))).drop w2.length =
      (dc :: d2) ++ ((wc :: w4) ++ (c :: n2)) := List.drop_left _ _
  have htaked : ((dc :: d2) ++
      ((wc :: w4) ++ (c :: n2))).takeWhile Char.isDigit = dc :: d2 := by
    rw [takeWhile_all_append Char.isDigit (dc :: d2) _ hda]
    simp [List.takeWhile_cons, hwcd]
  have hde : (dc :: d2).isEmpty = false := rfl
  have hdropd : ((dc :: d2) ++
      ((wc :: w4) ++ (c :: n2))).drop (dc :: d2).length =
      (wc :: w4) ++ (c :: n2) := List.drop_left _ _
  have htake3 : ((wc :: w4) ++ (c :: n2)).takeWhile isWsJS =
      wc :: w4 := by
    rw [takeWhile_all_append isWsJS (wc :: w4) _ hw3a]
    simp [List.takeWhile_cons, hc]
  have hw3e : (wc :: w4).isEmpty = false := rfl
  have hdropw3 : ((wc :: w4) ++ (c :: n2)).drop (wc :: w4).length =
      c :: n2 := List.drop_left _ _
  have hr5 : (c :: n2).isEmpty = false := rfl
  have hall : (c :: n2).all (fun x => !isLineTerm x) = true := by
    rw [List.all_eq_true]
    intro x hx
    simp [hlt x hx]
  simp only [matchDeclLine, hpre, hdrop6, htake1, hw1e, hdropw1, hmk,
    htake2, hw2e, hdropw2, htaked, hde, hdropd, htake3, hw3e, hdropw3,
    hr5, hall, Bool.false_eq_true, if_true, if_false, eq_self_iff_true,
    ite_true, ite_false]

theorem ne_nil_of_isEmpty_ne {α : Type} (l : List α)
    (h : ¬(l.isEmpty = true)) : l ≠ [] := by
  intro hl
  subst hl
  exact h rfl

theorem mem_of_getLast_opt {α : Type} (a : α) : ∀ (l : List α),
    l.getLast? = some a → a ∈ l := by
  intro l
  induction l with
  | nil => intro h; simp at h
  | cons b l ih =>
    intro h
    cases l with
    | nil =>
      simp only [List.getLast?_singleton, Option.some.injEq] at h
      subst h
      exact List.mem_cons_self _ _
    | cons c2 l2 =>
      rw [List.getLast?_cons_cons] at h
      exact List.mem_cons_of_mem b (ih h)

theorem matchKindTok_inv (s : Str) (t : CALObjectType) (r : Str)
    (h : matchKindTok s = some (t, r)) :
    s = kindTok t ++ r := by
  unfold matchKindTok at h
  cases hf : kindTokens.find? (fun kt => kt.1.isPrefixOf s) with
  | none =>
    rw [hf] at h
    cases h
  | some p =>
    obtain ⟨tok, t2⟩ := p
    rw [hf] at h
    have hp : tok.isPrefixOf s = true := by
      simpa using List.find?_some hf
    have htok : tok = kindTok t2 :=
      kindTokens_tok (tok, t2) (List.mem_of_find?_eq_some hf)
    simp only [Option.some.injEq, Prod.mk.injEq] at h
    obtain ⟨rfl, rfl, rfl⟩ := h
    rw [← htok]
    have hlen := eq_append_drop_of_isPrefixOf tok s hp
    exact hlen

theorem takeWhile_drop_decomp {α : Type} (p : α → Bool) (l : List α) :
    l = l.takeWhile p ++ l.drop (l.takeWhile p).length := by
  rw [drop_takeWhile_length]
  exact (List.takeWhile_append_dropWhile p l).symm

/-- Inversion of the declaration matcher: a successful match either has
the canonical decomposed shape, or arose from the `\s+` backtracking
case, where the captured name is a single whitespace character. -/
theorem matchDeclLine_inv (line : Str) (t : CALObjectType) (d n : Str)
    (h : matchDeclLine line = some (t, d, n)) :
    (∃ w1 w2 w3 c n2,
      line = "OBJECT".toList ++ (w1 ++ (kindTok t ++
        (w2 ++ (d ++ (w3 ++ (c :: n2)))))) ∧
      w1 ≠ [] ∧ (∀ x ∈ w1, isWsJS x = true) ∧
      w2 ≠ [] ∧ (∀ x ∈ w2, isWsJS x = true) ∧
      d ≠ [] ∧ (∀ x ∈ d, x.isDigit = true) ∧
      w3 ≠ [] ∧ (∀ x ∈ w3, isWsJS x = true) ∧
      isWsJS c = false ∧ (∀ x ∈ c :: n2, isLineTerm x = false) ∧
      n = c :: n2) ∨
    (∃ lc, n = [lc] ∧ isWsJS lc = true) := by
  simp only [matchDeclLine] at h
  split at h
  case isFalse => exact Option.noConfusion h
  case isTrue hpre =>
    split at h
    case isTrue => exact Option.noConfusion h
    case isFalse he1 =>
      split at h
      case h_1 => exact Option.noConfusion h
      case h_2 t2 rest2 hmk =>
        split at h
        case isTrue => exact Option.noConfusion h
        case isFalse he2 =>
          split at h
          case isTrue => exact Option.noConfusion h
          case isFalse he3 =>
            split at h
            case isTrue he5 =>
              split at h
              case h_2 => exact Option.noConfusion h
              case h_1 lc hlast =>
                split at h
                case isFalse => exact Option.noConfusion h
                case isTrue hok =>
                  simp only [Option.some.injEq, Prod.mk.injEq] at h
                  obtain ⟨ht2, hdeq, hneq⟩ := h
                  right
                  refine ⟨lc, hneq.symm, ?_⟩
                  have hmem := mem_of_getLast_opt lc _ hlast
                  exact mem_takeWhile_pred isWsJS lc _ hmem
            case isFalse he5 =>
              split at h
              case isTrue => exact Option.noConfusion h
              case isFalse hw3e =>
                split at h
                case isFalse => exact Option.noConfusion h
                case isTrue hall =>
                  simp only [Option.some.injEq, Prod.mk.injEq] at h
                  obtain ⟨ht2, hdeq, hneq⟩ := h
                  left
                  have hr5ne :
                      (((rest2.drop (rest2.takeWhile isWsJS).length).drop
                          ((rest2.drop
                            (rest2.takeWhile isWsJS).length).takeWhile
                              Char.isDigit).length).drop
                        (((rest2.drop
                          (rest2.takeWhile isWsJS).length).drop
                            ((rest2.drop
                              (rest2.takeWhile isWsJS).length).takeWhile
                                Char.isDigit).length).takeWhile
                          isWsJS).length) ≠ [] :=
                    ne_nil_of_isEmpty_ne _ he5
                  obtain ⟨c, n2, hr5c⟩ :
                      ∃ c n2,
                        ((rest2.drop
                          (rest2.takeWhile isWsJS).length).drop
                            ((rest2.drop
                              (rest2.takeWhile isWsJS).length).takeWhile
                                Char.isDigit).length).drop
                          (((rest2.drop
                            (rest2.takeWhile isWsJS).length).drop
                              ((rest2.drop
                                (rest2.takeWhile
                                  isWsJS).length).takeWhile
                                  Char.isDigit).length).takeWhile
                            isWsJS).length = c :: n2 := by
                    cases hx :
                        ((rest2.drop
                          (rest2.takeWhile isWsJS).length).drop
                            ((rest2.drop
                              (rest2.takeWhile isWsJS).length).takeWhile
                                Char.isDigit).length).drop
                          (((rest2.drop
                            (rest2.takeWhile isWsJS).length).drop
                              ((rest2.drop
                                (rest2.takeWhile
                                  isWsJS).length).takeWhile
                                  Char.isDigit).length).takeWhile
                            isWsJS).length with
                    | nil => exact absurd hx hr5ne
                    | cons a b => exact ⟨a, b, rfl⟩
                  have hcws : isWsJS c = false := by
                    apply dropWhile_head_false isWsJS c n2
                      ((rest2.drop (rest2.takeWhile isWsJS).length).drop
                        ((rest2.drop
                          (rest2.takeWhile isWsJS).length).takeWhile
                            Char.isDigit).length)
                    rw [← drop_takeWhile_length]
                    exact hr5c
                  have h6 : (6 : Nat) =
                      ("OBJECT".toList : Str).length := by decide
                  have hline : line = "OBJECT".toList ++ line.drop 6 := by
                    rw [h6]
                    exact eq_append_drop_of_isPrefixOf _ line hpre
                  have hs2 := matchKindTok_inv _ _ _ hmk
                  refine ⟨(line.drop 6).takeWhile isWsJS,
                    rest2.takeWhile isWsJS,
                    ((rest2.drop (rest2.takeWhile isWsJS).length).drop
                      ((rest2.drop
                        (rest2.takeWhile isWsJS).length).takeWhile
                          Char.isDigit).length).takeWhile isWsJS,
                    c, n2, ?_, ne_nil_of_isEmpty_ne _ he1,
                    fun x hx => mem_takeWhile_pred isWsJS x _ hx,
                    ne_nil_of_isEmpty_ne _ he2,
                    fun x hx => mem_takeWhile_pred isWsJS x _ hx,
                    ?_, ?_, ne_nil_of_isEmpty_ne _ hw3e,
                    fun x hx => mem_takeWhile_pred isWsJS x _ hx,
                    hcws, ?_, ?_⟩
                  · conv_lhs => rw [hline]
                    rw [congrArg ("OBJECT".toList ++ ·)
                      (takeWhile_drop_decomp isWsJS (line.drop 6))]
                    rw [hs2, ← ht2]
                    rw [congrArg (fun z =>
                      "OBJECT".toList ++
                        ((line.drop 6).takeWhile isWsJS ++
                          (kindTok t2 ++ z)))
                      (takeWhile_drop_decomp isWsJS rest2)]
                    rw [congrArg (fun z =>
                      "OBJECT".toList ++
                        ((line.drop 6).takeWhile isWsJS ++
                          (kindTok t2 ++ (rest2.takeWhile isWsJS ++ z))))
                      (takeWhile_drop_decomp Char.isDigit
                        (rest2.drop (rest2.takeWhile isWsJS).length))]
                    rw [← hdeq]
                    rw [congrArg (fun z =>
                      "OBJECT".toList ++
                        ((line.drop 6).takeWhile isWsJS ++
                          (kindTok t2 ++ (rest2.takeWhile isWsJS ++
                            ((rest2.drop
                              (rest2.takeWhile isWsJS).length).takeWhile
                                Char.isDigit ++ z)))))
                      (takeWhile_drop_decomp isWsJS
                        ((rest2.drop
                          (rest2.takeWhile isWsJS).length).drop
                            ((rest2.drop
                              (rest2.takeWhile isWsJS).length).takeWhile
                                Char.isDigit).length))]
                    rw [hr5c]
                  · rw [← hdeq]
                    exact ne_nil_of_isEmpty_ne _ he3
                  · intro x hx
                    rw [← hdeq] at hx
                    exact mem_takeWhile_pred Char.isDigit x _ hx
                  · intro x hx
                    rw [hr5c] at hall
                    have := List.all_eq_true.mp hall x hx
                    simpa using this
                  · rw [← hneq, hr5c]

/--
Claim C7 (corrected): declaration parsing succeeds exactly on first
lines of the shape `OBJECT <kind> <id> <name>` — a recognized kind
token, a digit run and a name part non-empty after trimming, separated
by whitespace runs — and then returns exactly the kind, the numeric id
and the trimmed name, never a partially filled header; but with the
additional requirement, absent from the original wording, that the name
region be free of line terminators: the regex's name clause cannot span
one, so e.g. a trailing carriage return from a CRLF line ending makes
the parse fail (see the counterexample).
-/
theorem C7_declaration_iff (line : Str) (t : CALObjectType) (id : Nat)
    (name : Str) :
    parseObjectDeclaration line = .ok ⟨t, id, name⟩ ↔
      DeclShapeCode line t id name := by
  constructor
  · intro h
    rw [parseObjectDeclaration.eq_def] at h
    cases hm : matchDeclLine line with
    | none =>
      rw [hm] at h
      cases h
    | some pr =>
      obtain ⟨t2, d, n2⟩ := pr
      rw [hm] at h
      simp only [] at h
      by_cases he : (trimJS n2).isEmpty = true
      · rw [if_pos he] at h
        cases h
      · rw [if_neg he] at h
        simp only [Except.ok.injEq, CALObjectHeader.mk.injEq] at h
        obtain ⟨rfl, hid, hname⟩ := h
        rcases matchDeclLine_inv line t2 d n2 hm with
          ⟨w1, w2, w3, c, n3, hline, hw1, hw1a, hw2, hw2a, hd, hda,
            hw3, hw3a, hc, hlt, hn2⟩ | ⟨lc, hn2, hlcws⟩
        · refine ⟨w1, w2, d, w3, c, n3, ?_, hw1, hw1a, hw2, hw2a, hd,
            hda, hw3, hw3a, hc, hlt, hid.symm, ?_⟩
          · simp only [List.append_assoc]
            exact hline
          · rw [← hname, hn2]
        · exfalso
          rw [hn2, trimJS_single_ws lc hlcws] at he
          exact he rfl
  · rintro ⟨w1, w2, d, w3, c, n3, hline, hw1, hw1a, hw2, hw2a, hd,
      hda, hw3, hw3a, hc, hlt, hid, hname⟩
    obtain ⟨dc, d2, rfl⟩ : ∃ dc d2, d = dc :: d2 := by
      cases d with
      | nil => exact absurd rfl hd
      | cons a b => exact ⟨a, b, rfl⟩
    obtain ⟨wc, w4, rfl⟩ : ∃ wc w4, w3 = wc :: w4 := by
      cases w3 with
      | nil => exact absurd rfl hw3
      | cons a b => exact ⟨a, b, rfl⟩
    subst hline
    have hm := matchDeclLine_shape t w1 w2 d2 w4 n3 dc wc c hw1 hw1a
      hw2 hw2a hda hw3a hc hlt
    have hargs : "OBJECT".toList ++ w1 ++ kindTok t ++ w2 ++
        (dc :: d2) ++ (wc :: w4) ++ (c :: n3) =
        "OBJECT".toList ++ (w1 ++ (kindTok t ++ (w2 ++ ((dc :: d2) ++
          ((wc :: w4) ++ (c :: n3)))))) := by
      simp only [List.append_assoc]
    rw [parseObjectDeclaration.eq_def, hargs, hm]
    simp only []
    rw [if_neg ?hne]
    case hne =>
      rw [isEmpty_false_of_ne _ (trimJS_cons_ne_nil c n3 hc)]
      exact Bool.false_ne_true
    rw [hid, hname]

/--
Claim C7, witness: a well-formed declaration line parses to exactly its
kind, id and trimmed name, and conversely has the accepted shape.
-/
theorem C7_declaration_iff_witness :
    parseObjectDeclaration "OBJECT Table 3 Customer".toList =
      .ok ⟨.Table, 3, "Customer".toList⟩ ∧
    DeclShapeCode "OBJECT Table 3 Customer".toList .Table 3
      "Customer".toList := by
  have hp : parseObjectDeclaration "OBJECT Table 3 Customer".toList =
      .ok ⟨.Table, 3, "Customer".toList⟩ := by decide
  exact ⟨hp,
    (C7_declaration_iff "OBJECT Table 3 Customer".toList .Table 3
      "Customer".toList).mp hp⟩

/--
Claim C7, counterexample to the original wording: the line
`OBJECT Table 3 X<CR>` has the claimed shape — kind token, digit run,
and name `X` non-empty after trimming (the carriage return is
whitespace, stripped by `trim`) — yet the parser rejects the line,
because the regex's name region cannot contain a line terminator.
-/
theorem C7_cr_name_counterexample :
    DeclShapeClaim "OBJECT Table 3 X\r".toList .Table 3 "X".toList ∧
    parseObjectDeclaration "OBJECT Table 3 X\r".toList =
      .error ("Invalid OBJECT declaration format: OBJECT Table 3 X\r".toList) := by
  constructor
  · refine ⟨" ".toList, " ".toList, "3".toList, " ".toList,
      "X\r".toList, ?_, ?_, ?_, ?_, ?_, ?_, ?_, ?_, ?_, ?_, ?_, ?_⟩ <;>
      decide
  · decide

/-! Micro-grammar lemmas (claim C8). -/

/--
Claim C8 (confirmed): the relation-constraint micro-grammar extracts the
leading quoted phrase as the target name and keeps the trailing
qualifying clause out of it — concretely, the fixture value
`"Payment Terms" WHERE (Type=CONST(Customer))` yields exactly target
name `Payment Terms`, and in general a properly closed leading quoted
phrase is extracted exactly, whatever follows; the aggregate-formula
micro-grammar extracts the quoted target after the method keyword, so
the fixture `Sum("Cust. Ledger Entry".Amount WHERE (...))` yields
exactly target name `Cust. Ledger Entry`; and a relation-constraint
value that is empty after trimming yields no reference edge rather than
an error.
-/
theorem C8_micro_grammars :
    extractTableRelationRef fldPayTerms tblCustomer =
      some ⟨.Table, 18, "Customer".toList,
        "Field:Payment Terms Code".toList, .Table, none,
        "Payment Terms".toList, .TableRelation⟩ ∧
    extractCalcFormulaRefs fldBalance tblCustomer =
      [⟨.Table, 18, "Customer".toList, "Field:Balance".toList, .Table,
        none, "Cust. Ledger Entry".toList, .CalcFormula⟩] ∧
    (∀ (name tail2 : Str), name ≠ [] →
      (∀ x ∈ name, (x == dqChar) = false) →
      relTargetLeading (dqChar :: (name ++ dqChar :: tail2)) = name) ∧
    (∀ (field : CALField) (table : CALObject) (prop : CALProperty),
      field.properties.find?
        (fun p => p.name == "TableRelation".toList) = some prop →
      trimJS prop.value.toStr = [] →
      extractTableRelationRef field table = none) := by
  refine ⟨by decide, by decide, ?_, ?_⟩
  · intro name tail2 hne hnq
    have hall : ∀ x ∈ name, (fun x => x != dqChar) x = true := by
      intro x hx
      show (x != dqChar) = true
      simp only [bne]
      rw [hnq x hx]
      rfl
    have htw : (name ++ dqChar :: tail2).takeWhile
        (fun x => x != dqChar) = name := by
      rw [takeWhile_all_append _ name _ hall]
      simp [List.takeWhile_cons]
    simp only [relTargetLeading, beq_self_eq_true, if_true,
      eq_self_iff_true, ite_true, htw]
    rw [if_pos]
    rw [isEmpty_false_of_ne name hne]
    simp [List.length_append, List.length_cons]
  · intro field table prop hf htrim
    simp only [extractTableRelationRef]
    rw [hf]
    cases htr : prop.value.truthy <;> simp [htr, htrim]

/--
Claim C8, witness: the quoted-phrase conjunct applied to the
`Payment Terms` phrase with a trailing qualifying clause.
-/
theorem C8_micro_grammars_witness :
    relTargetLeading (dqChar ::
      ("Payment Terms".toList ++ dqChar :: " WHERE (X)".toList)) =
      "Payment Terms".toList :=
  C8_micro_grammars.2.2.1 "Payment Terms".toList " WHERE (X)".toList
    (by decide) (by decide)

/--
Claim C9 (confirmed): when a record-type object text lacks the fields
section, table parsing fails with the error naming `FIELDS`; when the
fields section is present but the keys section is absent, it fails with
the error naming `KEYS`; in both cases no entity is produced (the result
is an error, not a partially filled value) — shown in general over any
content whose first line parses as a Table header, and concretely on
the two fixture texts.
-/
theorem C9_missing_section (content : Str) (h : CALObjectHeader)
    (hhdr : parseObjectDeclaration ((splitNl content).headD []) = .ok h)
    (htbl : h.type = CALObjectType.Table) :
    (indexOfSub content "\n  FIELDS\n".toList = none →
      parseTable content =
        .error "Missing FIELDS section in table".toList) ∧
    (∀ fs, indexOfSub content "\n  FIELDS\n".toList = some fs →
      indexOfSub content "\n  KEYS\n".toList = none →
      parseTable content =
        .error "Missing KEYS section in table".toList) ∧
    parseTable tblTextNoFields =
      .error "Missing FIELDS section in table".toList ∧
    parseTable tblTextNoKeys =
      .error "Missing KEYS section in table".toList := by
  refine ⟨?_, ?_, by decide, by decide⟩
  · intro hf
    simp only [parseTable]
    rw [hhdr]
    simp only []
    rw [htbl]
    simp at hf
    simp [hf]
  · intro fs hfs hk
    simp only [parseTable]
    rw [hhdr]
    simp only []
    rw [htbl]
    simp at hfs hk
    simp [hfs, hk]

/--
Claim C9, witness: the fields-absent implication applied to the
fields-less fixture text.
-/
theorem C9_missing_section_witness :
    parseTable tblTextNoFields =
      .error "Missing FIELDS section in table".toList :=
  (C9_missing_section tblTextNoFields
    ⟨.Table, 3, "Payment Terms".toList⟩ (by decide) rfl).1 (by decide)

/-! Deduplication-discipline lemmas (claim C10). -/

theorem any_ext {α : Type} (l : List α) (f g : α → Bool)
    (h : ∀ x, f x = g x) : l.any f = l.any g := by
  induction l <;> simp_all

theorem chainNoDup_snoc (dup : CALReference → CALReference → Bool) :
    ∀ (t base : List CALReference) (r : CALReference),
    ChainNoDup dup base t → (base ++ t).any (dup r) = false →
    ChainNoDup dup base (t ++ [r]) := by
  intro t
  induction t with
  | nil =>
    intro base r hc ha
    exact ⟨by simpa using ha, trivial⟩
  | cons s t ih =>
    intro base r hc ha
    obtain ⟨h1, h2⟩ := hc
    refine ⟨h1, ih (base ++ [s]) r h2 ?_⟩
    rw [List.append_assoc]
    simpa using ha

theorem addedOK_refl (dup : CALReference → CALReference → Bool)
    (base : List CALReference) : AddedOK dup base base :=
  ⟨[], by simp, trivial⟩

theorem addedOK_addRefUnless (dup : CALReference → CALReference → Bool)
    (base acc : List CALReference) (r : CALReference)
    (g : CALReference → Bool) (hg : ∀ prior, g prior = dup r prior)
    (h : AddedOK dup base acc) :
    AddedOK dup base (addRefUnless g acc r) := by
  obtain ⟨t, rfl, hc⟩ := h
  rw [addRefUnless]
  by_cases ha : (base ++ t).any g = true
  · rw [if_pos ha]
    exact ⟨t, rfl, hc⟩
  · rw [if_neg ha]
    refine ⟨t ++ [r], List.append_assoc _ _ _,
      chainNoDup_snoc dup t base r hc ?_⟩
    rw [← any_ext (base ++ t) g (dup r) hg]
    exact Bool.eq_false_iff.mpr ha

theorem addedOK_foldl {β : Type} (dup : CALReference → CALReference → Bool)
    (base : List CALReference)
    (f : List CALReference → β → List CALReference)
    (hf : ∀ acc b, AddedOK dup base acc → AddedOK dup base (f acc b)) :
    ∀ (l : List β) (acc : List CALReference), AddedOK dup base acc →
      AddedOK dup base (l.foldl f acc) := by
  intro l
  induction l with
  | nil => intro acc h; exact h
  | cons b l ih =>
    intro acc h
    exact ih (f acc b) (hf acc b h)

theorem chainNoDup_acc_mem (dup : CALReference → CALReference → Bool) :
    ∀ (t acc : List CALReference), ChainNoDup dup acc t →
      ∀ s ∈ t, ∀ x ∈ acc, dup s x = false := by
  intro t
  induction t with
  | nil => intro acc _ s hs; cases hs
  | cons r t ih =>
    intro acc h s hs x hx
    obtain ⟨h1, h2⟩ := h
    rcases List.mem_cons.mp hs with rfl | hs2
    · have := List.any_eq_false.mp h1 x hx
      simpa using this
    · exact ih (acc ++ [r]) h2 s hs2 x (List.mem_append_left _ hx)

theorem chainNoDup_pairwise (dup : CALReference → CALReference → Bool) :
    ∀ (t base : List CALReference), ChainNoDup dup base t →
      t.Pairwise (fun a b => dup b a = false) := by
  intro t
  induction t with
  | nil => intro base _; exact List.Pairwise.nil
  | cons r t ih =>
    intro base h
    obtain ⟨h1, h2⟩ := h
    refine List.Pairwise.cons ?_ (ih (base ++ [r]) h2)
    intro b hb
    exact chainNoDup_acc_mem dup t (base ++ [r]) h2 b hb r (by simp)

theorem depIncomingFromObj_ok (objectId : Nat) (targetName : Str)
    (base : List CALReference) (obj : CALObject) :
    ∀ (acc : List CALReference), AddedOK dupByIds base acc →
      AddedOK dupByIds base (depIncomingFromObj objectId targetName acc obj) := by
  intro acc h
  rw [depIncomingFromObj.eq_def]
  cases hty : obj.type
  case Table =>
    simp only []
    refine addedOK_foldl dupByIds base _ ?_ obj.fields acc h
    intro acc2 field h2
    refine addedOK_foldl dupByIds base _ ?_ field.properties acc2 h2
    intro acc3 prop h3
    cases hsv : prop.value.strVal? with
    | none => exact h3
    | some s =>
      simp only []
      by_cases hcond : (prop.name == "TableRelation".toList &&
          containsSub (lowerStr s) (lowerStr targetName)) = true
      · rw [if_pos hcond]
        exact addedOK_addRefUnless dupByIds base acc3 _ _
          (fun prior => rfl) h3
      · rw [if_neg hcond]
        exact h3
  case Page =>
    simp only []
    by_cases hcond : (obj.sourceTable == some objectId) = true
    · rw [if_pos hcond]
      exact addedOK_addRefUnless dupByIds base acc _ _
        (fun prior => rfl) h
    · rw [if_neg hcond]
      exact h
  all_goals exact h

theorem depOutgoingFromTable_ok (db : SymbolDatabase)
    (table : CALObject) (base : List CALReference) :
    ∀ (acc : List CALReference), AddedOK dupByIds base acc →
      AddedOK dupByIds base (depOutgoingFromTable db table acc) := by
  intro acc h
  rw [depOutgoingFromTable]
  refine addedOK_foldl dupByIds base _ ?_ table.fields acc h
  intro acc2 field h2
  refine addedOK_foldl dupByIds base _ ?_ field.properties acc2 h2
  intro acc3 prop h3
  cases hsv : prop.value.strVal? with
  | none => exact h3
  | some s =>
    simp only []
    by_cases hcond : (prop.name == "TableRelation".toList &&
        !s.isEmpty) = true
    · rw [if_pos hcond]
      cases hdb : db.getObjectByName .Table (relTargetFromValue s) with
      | none => exact h3
      | some targetTable =>
        simp only []
        exact addedOK_addRefUnless dupByIds base acc3 _ _
          (fun prior => rfl) h3
    · rw [if_neg hcond]
      exact h3

theorem relMapFromField_ok (db : SymbolDatabase) (includeCS : Bool)
    (table : CALObject) (base : List CALReference) :
    ∀ (acc : List CALReference) (field : CALField),
      AddedOK dupRelMap base acc →
      AddedOK dupRelMap base (relMapFromField db includeCS table acc field) := by
  intro acc field h
  rw [relMapFromField]
  have hrel : AddedOK dupRelMap base
      (field.properties.foldl (fun a prop =>
        match prop.value.strVal? with
        | some s =>
          if prop.name == "TableRelation".toList && !s.isEmpty then
            match db.getObjectByName .Table (relTargetFromValue s) with
            | some targetTable =>
              addRefUnless (dupByIds ⟨.Table, table.id, table.name,
                  "Field:".toList ++ field.name, .Table,
                  some targetTable.id, targetTable.name, .TableRelation⟩)
                a
                ⟨.Table, table.id, table.name,
                  "Field:".toList ++ field.name, .Table,
                  some targetTable.id, targetTable.name, .TableRelation⟩
            | none => a
          else a
        | none => a) acc) := by
    refine addedOK_foldl dupRelMap base _ ?_ field.properties acc h
    intro acc2 prop h2
    cases hsv : prop.value.strVal? with
    | none => exact h2
    | some s =>
      simp only []
      by_cases hcond : (prop.name == "TableRelation".toList &&
          !s.isEmpty) = true
      · rw [if_pos hcond]
        cases hdb : db.getObjectByName .Table (relTargetFromValue s) with
        | none => exact h2
        | some targetTable =>
          simp only []
          refine addedOK_addRefUnless dupRelMap base acc2 _ _ ?_ h2
          intro prior
          simp [dupRelMap]
      · rw [if_neg hcond]
        exact h2
  cases hcf : field.calcFormula with
  | none => exact hrel
  | some f =>
    simp only []
    by_cases hinc : (includeCS && !f.isEmpty) = true
    · rw [if_pos hinc]
      cases hct : calcTargetCS f with
      | none => exact hrel
      | some inner =>
        simp only []
        cases hdb : db.getObjectByName .Table (trimJS inner) with
        | none => exact hrel
        | some targetTable =>
          simp only []
          refine addedOK_addRefUnless dupRelMap base _ _ _ ?_ hrel
          intro prior
          simp [dupRelMap]
    · rw [if_neg hinc]
      exact hrel

/--
Claim C10 (corrected): in the dependency-graph operation, every edge
synthesized by scanning stored table fields is appended only when no
already-collected edge has the same source object id and target object
id — the comparison looks at nothing else, in particular not at the
source object's kind or the originating location, so among the
synthesized additions at most one edge per id pair survives (the first
field encountered) and later fields' locations are dropped; in the
relation-map operation this ids-only rule holds for relation-constraint
edges, but — contrary to the original wording — an aggregate-formula
candidate is compared only against prior aggregate-formula edges, so a
relation-constraint edge and an aggregate-formula edge with identical
ids can both survive (see the counterexample).
-/
theorem C10_dedup_by_ids (db : SymbolDatabase)
    (allRefs : List CALReference) (otype : CALObjectType) (oid : Nat)
    (tid2 : Option Nat) (includeCS : Bool) :
    AddedOK dupByIds (depIncomingBase db allRefs otype oid)
      (getDependencies db allRefs otype oid .incoming).incoming ∧
    AddedOK dupByIds (depOutgoingBase allRefs otype oid)
      (getDependencies db allRefs otype oid .outgoing).outgoing ∧
    AddedOK dupRelMap (relMapBase allRefs tid2 includeCS)
      (getTableRelations db allRefs tid2 includeCS) ∧
    (∀ (base t : List CALReference), ChainNoDup dupByIds base t →
      t.Pairwise (fun a b => dupByIds b a = false)) := by
  refine ⟨?_, ?_, ?_, fun base t hc => chainNoDup_pairwise dupByIds t base hc⟩
  · simp only [getDependencies]
    rw [if_pos (Or.inl trivial)]
    exact addedOK_foldl dupByIds _ _
      (fun acc obj h => depIncomingFromObj_ok oid
        (depTargetName db otype oid) _ obj acc h) _ _
      (addedOK_refl dupByIds _)
  · simp only [getDependencies]
    rw [if_pos (Or.inl trivial)]
    cases hobj : db.getObjectById otype oid with
    | none => exact addedOK_refl dupByIds _
    | some sourceObj =>
      simp only []
      by_cases hty : sourceObj.type = CALObjectType.Table
      · rw [if_pos hty]
        exact depOutgoingFromTable_ok db sourceObj _ _
          (addedOK_refl dupByIds _)
      · rw [if_neg hty]
        exact addedOK_refl dupByIds _
  · rw [getTableRelations]
    refine addedOK_foldl dupRelMap _ _ ?_ _ _ (addedOK_refl dupRelMap _)
    intro acc table h
    split
    · exact h
    · exact addedOK_foldl dupRelMap _ _
        (fun acc2 field h2 =>
          relMapFromField_ok db includeCS table _ acc2 field h2)
        table.fields acc h

/--
Claim C10, witness: the relation-map discipline instantiated on the
two-table fixture database.
-/
theorem C10_dedup_by_ids_witness :
    AddedOK dupRelMap (relMapBase [] none true)
      (getTableRelations dbRel [] none true) :=
  (C10_dedup_by_ids dbRel [] .Table 0 none true).2.2.1

/--
Claim C10, counterexample to the original wording: two distinct fields
of the fixture source table reference the same target — one through a
relation constraint, one through an aggregate formula — and the
relation map keeps BOTH edges (same source id, same target id,
different originating locations), because the aggregate-formula
duplicate test also requires the prior edge to be an aggregate-formula
edge.
-/
theorem C10_relmap_counterexample :
    getTableRelations dbRel [] none true = [refFA, refFB] ∧
    refFA.sourceId = refFB.sourceId ∧
    refFA.targetId = refFB.targetId ∧
    refFA.sourceLocation ≠ refFB.sourceLocation := by
  refine ⟨by decide, rfl, rfl, by decide⟩

/-! Record-variable extraction lemmas (claim C2). -/

theorem word_not_ws (c : Char) (h : isWordChar c = true) :
    isWsJS c = false := by
  cases hw : isWsJS c
  · rfl
  · exfalso
    rcases ws_char_cases c hw with h1|h1|h1|h1|h1|h1|h1|h1 <;>
      subst h1 <;> exact absurd h (by decide)

theorem dotnet_type (name tw : Str) :
    (parseDotNetVariable name tw).type = "DotNet".toList := by
  simp only [parseDotNetVariable]
  repeat' split
  all_goals rfl

theorem textconst_type (name tw : Str) :
    (parseTextConstVariable name tw).type = "TextConst".toList := by
  simp only [parseTextConstVariable]
  repeat' split
  all_goals rfl

theorem simpleTypeMatch_type (name tw : Str) (v : CALVariable)
    (h : simpleTypeMatch name tw = some v) :
    v.type = tw.takeWhile isWordChar := by
  simp only [simpleTypeMatch] at h
  split at h
  · exact Option.noConfusion h
  · split at h
    · split at h
      · split at h
        · simp only [Option.some.injEq] at h
          rw [← h]
        · simp only [Option.some.injEq] at h
          rw [← h]
      · simp only [Option.some.injEq] at h
        rw [← h]
    · simp only [Option.some.injEq] at h
      rw [← h]

theorem varTypeStage_type_no_ws (name : Str) (isTemp : Bool) (tw : Str)
    (v : CALVariable) (h : varTypeStage name isTemp tw = some v) :
    ∀ x ∈ v.type, isWsJS x = false := by
  have hdn : ∀ x ∈ ("DotNet".toList : Str), isWsJS x = false := by decide
  have htc : ∀ x ∈ ("TextConst".toList : Str), isWsJS x = false := by
    decide
  have hrc : ∀ x ∈ ("Record".toList : Str), isWsJS x = false := by decide
  simp only [varTypeStage] at h
  split at h
  · simp only [Option.some.injEq] at h
    rw [← h, dotnet_type]
    exact hdn
  · split at h
    · simp only [Option.some.injEq] at h
      rw [← h, textconst_type]
      exact htc
    · split at h
      · split at h
        case h_1 dg heq =>
          simp only [Option.some.injEq] at h
          rw [← h]
          exact hrc
        case h_2 =>
          have ht := simpleTypeMatch_type _ _ v h
          rw [ht]
          intro x hx
          exact word_not_ws x (mem_takeWhile_pred isWordChar x _ hx)
      · have ht := simpleTypeMatch_type _ _ v h
        rw [ht]
        intro x hx
        exact word_not_ws x (mem_takeWhile_pred isWordChar x _ hx)

theorem parseVariableLine_type_no_ws (line : Str) (v : CALVariable)
    (h : parseVariableLine line = some v) :
    ∀ x ∈ v.type, isWsJS x = false := by
  rw [parseVariableLine] at h
  cases hm : varHeadMatch line with
  | none =>
    rw [hm] at h
    exact Option.noConfusion h
  | some pr =>
    obtain ⟨w, isTemp, tw⟩ := pr
    rw [hm] at h
    exact varTypeStage_type_no_ws w isTemp tw v h

theorem recordTypeCapture_no_ws (t : Str)
    (h : ∀ x ∈ t, isWsJS x = false) :
    recordTypeCapture t = none := by
  simp only [recordTypeCapture]
  split
  · have hw : (t.drop 6).takeWhile isWsJS = [] := by
      cases hd : t.drop 6 with
      | nil => rfl
      | cons a r =>
        have hm : a ∈ t :=
          List.mem_of_mem_drop (by rw [hd]; exact List.mem_cons_self a r)
        simp [List.takeWhile_cons, h a hm]
    rw [hw]
    simp
  · rfl

set_option maxRecDepth 40000 in
/--
Claim C2 (code bug): the codeunit parser accepts the fixture text,
producing one record variable with a numeric table-id payload (type
`Record`, subtype `18`), one with a name payload, and one plain
variable — yet the reference extractor emits NO edge at all for the
parsed entity, rather than one edge per record variable: the extractor
matches `Record <x>` against the variable's type string, but the parser
always stores the bare token (`Record`, `DotNet`, `TextConst` or a
word-character run) there and puts the payload in `subtype`, so no
variable produced by the parser can ever yield a record edge.
-/
theorem C2_record_variable_edges_lost :
    parseCodeunitVars cuText = .ok cuVars ∧
    extractReferences cuObj = [] ∧
    (∀ (line : Str) (v : CALVariable) (obj : CALObject),
      parseVariableLine line = some v →
      extractRecordVariableRef v obj = none) := by
  refine ⟨by decide, by decide, ?_⟩
  intro line v obj hv
  have hws := parseVariableLine_type_no_ws line v hv
  have hcap := recordTypeCapture_no_ws v.type hws
  simp [extractRecordVariableRef, hcap]

/--
Claim C2, witness: the numeric record variable parsed from the fixture
declaration line produces no edge.
-/
theorem C2_record_variable_edges_lost_witness :
    extractRecordVariableRef
      ⟨"CustRec".toList, "Record".toList, some "18".toList, none,
        some false, none, none⟩ cuObj = none :=
  C2_record_variable_edges_lost.2.2
    "      CustRec@1000 : Record 18;".toList
    ⟨"CustRec".toList, "Record".toList, some "18".toList, none,
      some false, none, none⟩ cuObj (by decide)

end CAL
